import Mathlib

/-!
# Verification of the Domiro batch domain-checking pipeline

Shallow embedding of the core pipeline of the `domiro-org/web` repository:
domain normalization (`src/shared/utils/async.ts`), the verdict reconciler
(`src/shared/utils/checkPipeline.ts`), the DNS pre-check
(`src/shared/utils/dohQuery.ts`, `src/utils/dnsPrecheck.ts`), the RDAP
lookup and retry envelope (`src/shared/utils/rdapQuery.ts`), the bounded
concurrency queue (`src/shared/hooks/useConcurrentQueue.ts`) and the
application-state reducer (`src/shared/hooks/useAppState.tsx`).

JavaScript numbers are modelled as an inductive `JsNum` (a rational or one
of the non-finite values); machine-level floating point rounding is outside
the modelled fragment, which only exercises small integral values.
Asynchronous network calls are modelled by explicit oracles listing the
outcome of each request, and the event-loop execution of the concurrent
queue by a small-step transition system over traces of enqueue / finish /
clear events.
-/

namespace Domiro

/-- JavaScript number: a finite rational or one of `NaN`, `+Infinity`,
`-Infinity`. -/
inductive JsNum where
  | num (q : ℚ)
  | nan
  | inf
  | negInf
deriving DecidableEq, Repr

namespace JsNum

/-- `Number.isFinite`. -/
def isFinite : JsNum → Bool
  | num _ => true
  | _ => false

/-- JavaScript truthiness of a number: `0` and `NaN` are falsy. -/
def truthy : JsNum → Bool
  | num q => q ≠ 0
  | nan => false
  | inf => true
  | negInf => true

/-- `x > 0` in JavaScript comparison semantics (`NaN > 0` is false). -/
def gtZero : JsNum → Bool
  | num q => 0 < q
  | nan => false
  | inf => true
  | negInf => false

/-- `Math.trunc` on a finite value: drop the fractional part, toward zero. -/
def trunc (q : ℚ) : ℤ :=
  if 0 ≤ q then ⌊q⌋ else ⌈q⌉

end JsNum

/-! ## DNS status and verdicts (`src/shared/types`, `checkPipeline.ts`) -/

/-- `DnsPrecheckStatus`: `"has-ns" | "no-ns" | "nxdomain" | "error"`. -/
inductive DnsStatus where
  | hasNs
  | noNs
  | nxdomain
  | error
deriving DecidableEq, Repr

/-- `Verdict`: `"available" | "taken" | "undetermined" | "rdap-unsupported"`. -/
inductive Verdict where
  | available
  | taken
  | undetermined
  | rdapUnsupported
deriving DecidableEq, Repr

/-- `RdapCheckResult` as consumed by the pipeline: HTTP-like status code,
tri-state availability, unsupported flag, detail message key and the
optional `retryAfter` detail parameter (seconds, a JS number). -/
structure RdapCheckResult where
  status : ℤ
  available : Option Bool
  unsupported : Bool := false
  detailKey : String := ""
  retryAfter : Option JsNum := none
deriving DecidableEq, Repr

/-- `shouldRunRdap` from `checkPipeline.ts`: DNS statuses that require the
RDAP stage. -/
def shouldRunRdap : DnsStatus → Bool
  | .noNs => true
  | .nxdomain => true
  | .error => true
  | .hasNs => false

/-- `deriveDnsVerdict` from `checkPipeline.ts`: preliminary verdict from the
DNS stage alone. -/
def deriveDnsVerdict : DnsStatus → Verdict
  | .hasNs => .taken
  | .error => .undetermined
  | _ => .available

/-- `deriveVerdictWithRdap` from `checkPipeline.ts`: final verdict from the
DNS status and the (possibly absent) RDAP result. -/
def deriveVerdictWithRdap (status : DnsStatus) (rdap : Option RdapCheckResult) :
    Verdict :=
  match rdap with
  | none =>
    match status with
    | .hasNs => .taken
    | .error => .undetermined
    | _ => .undetermined
  | some r =>
    if r.unsupported then .rdapUnsupported
    else if r.available = some true then .available
    else if r.available = some false then .taken
    else if r.status = 429 then .undetermined
    else deriveDnsVerdict status

/-! ## Settings sanitizer (`useAppState.tsx`) -/

/-- `AppSettings`: concurrency limits are raw JS numbers before
sanitization; providers are raw strings as found in persisted JSON. -/
structure AppSettings where
  rdapConcurrency : JsNum
  dnsConcurrency : JsNum
  dohProviders : List String
  useProxy : Bool
  enableWhoisFallback : Bool
deriving DecidableEq, Repr

/-- `defaultSettings` from `useAppState.tsx`. -/
def defaultSettings : AppSettings :=
  { rdapConcurrency := .num 3
    dnsConcurrency := .num 1000
    dohProviders := ["google", "cloudflare"]
    useProxy := false
    enableWhoisFallback := false }

/-- `Array.from(new Set(xs))`: deduplicate preserving first occurrence. -/
def dedupKeepFirst (xs : List String) : List String :=
  xs.foldl (fun acc x => if acc.contains x then acc else acc ++ [x]) []

/-- `sanitizeSettings` from `useAppState.tsx`: clamp the concurrency limits
into their legal ranges (replacing non-finite values by the defaults) and
restrict the provider list to known, duplicate-free entries, falling back
to the default pair when nothing valid remains. -/
def sanitizeSettings (settings : AppSettings) : AppSettings :=
  let providers := (dedupKeepFirst settings.dohProviders).filter
    (fun p => p = "google" ∨ p = "cloudflare")
  let safeProviders := if providers.length > 0 then providers
    else defaultSettings.dohProviders
  let rdapConcurrency : JsNum :=
    match settings.rdapConcurrency with
    | .num q => .num (min (max (JsNum.trunc q) 1) 12 : ℤ)
    | _ => defaultSettings.rdapConcurrency
  let dnsConcurrency : JsNum :=
    match settings.dnsConcurrency with
    | .num q => .num (min (max (JsNum.trunc q) 200) 5000 : ℤ)
    | _ => defaultSettings.dnsConcurrency
  { rdapConcurrency := rdapConcurrency
    dnsConcurrency := dnsConcurrency
    dohProviders := safeProviders
    useProxy := settings.useProxy
    enableWhoisFallback := settings.enableWhoisFallback }

/-! ## Character and string primitives

The normalizer operates on JavaScript strings; we model them through their
`List Char` contents (`String.data`). Character classes are expressed via
`Char.toNat` code points so that all side conditions are plain `Nat`
arithmetic. -/

/-- Whitespace stripped by `String.prototype.trim` (modelled for the ASCII
range: space, tab, line feed, vertical tab, form feed, carriage return). -/
def isWsChar (c : Char) : Bool :=
  c.toNat = 32 ∨ c.toNat = 9 ∨ c.toNat = 10 ∨ c.toNat = 11 ∨ c.toNat = 12 ∨
    c.toNat = 13

/-- ASCII uppercase letter `A`–`Z`. -/
def isAsciiUpper (c : Char) : Bool := 65 ≤ c.toNat ∧ c.toNat ≤ 90

/-- ASCII lowercase letter `a`–`z`. -/
def isAsciiLower (c : Char) : Bool := 97 ≤ c.toNat ∧ c.toNat ≤ 122

/-- ASCII digit `0`–`9`. -/
def isAsciiDigit (c : Char) : Bool := 48 ≤ c.toNat ∧ c.toNat ≤ 57

/-- ASCII letter, either case (the label regex carries the `i` flag). -/
def isAsciiAlpha (c : Char) : Bool := isAsciiUpper c ∨ isAsciiLower c

/-- ASCII letter or digit, case-insensitive. -/
def isAlnumCI (c : Char) : Bool := isAsciiAlpha c ∨ isAsciiDigit c

/-- `String.prototype.toLowerCase` on one character (ASCII range: shift
`A`–`Z` by 32). -/
def lowerChar (c : Char) : Char :=
  if h : 65 ≤ c.toNat ∧ c.toNat ≤ 90 then
    Char.ofNatAux (c.toNat + 32) (Or.inl (by omega))
  else c

/-- `toLowerCase` over the character contents of a string. -/
def lowerStr (l : List Char) : List Char := l.map lowerChar

/-- `String.prototype.trim` over character contents. -/
def trimChars (l : List Char) : List Char :=
  ((l.dropWhile isWsChar).reverse.dropWhile isWsChar).reverse

/-- Drop a single trailing dot, `replace(/\.$/, "")`. -/
def dropTrailingDot (l : List Char) : List Char :=
  match l.getLast? with
  | some c => if c = '.' then l.dropLast else l
  | none => l

/-- `String.prototype.split(".")` over character contents. -/
def splitDots : List Char → List (List Char)
  | [] => [[]]
  | c :: rest =>
    if c = '.' then [] :: splitDots rest
    else
      match splitDots rest with
      | [] => [[c]]
      | l :: ls => (c :: l) :: ls

/-! ## Domain normalizer (`src/shared/utils/async.ts`) -/

/-- `stripExtras` from `async.ts`: drop a `scheme://` or leading `//`
prefix, trim, keep the host part before the first `/`, `?` or `#`, and
drop a single trailing dot.  The anchored regex `^[a-z]+:\/\//i` matches
exactly when the maximal leading run of ASCII letters is non-empty and
immediately followed by `://`. -/
def stripExtras (l : List Char) : List Char :=
  let letters := l.takeWhile isAsciiAlpha
  let rest := l.drop letters.length
  let withoutScheme :=
    if letters ≠ [] ∧ rest.take 3 = [':', '/', '/'] then rest.drop 3 else l
  let withoutSlashes :=
    if withoutScheme.take 2 = ['/', '/'] then withoutScheme.drop 2
    else withoutScheme
  let trimmed := trimChars withoutSlashes
  let hostPart := trimmed.takeWhile fun c => ¬(c = '/' ∨ c = '?' ∨ c = '#')
  dropTrailingDot hostPart

/-- `toASCII` from `async.ts`.  Modelled from the spec and source: the
WHATWG `new URL("http://" + domain)` host parse is modelled on its ASCII
fragment — it fails on the empty string and on characters outside
letters/digits/hyphen/dot, and otherwise yields the host lowercased (the
code further strips a single trailing dot and lowercases).  IDNA/punycode
conversion, percent-decoding and port/userinfo splitting are outside the
modelled fragment; characters such as `_` that a real URL host would keep
are rejected here and by `validateAsciiDomain` alike, so the final
classification agrees on the modelled fragment. -/
def toASCII (l : List Char) : Option (List Char) :=
  if l = [] then none
  else if l.all (fun c => isAlnumCI c ∨ c = '-' ∨ c = '.') then
    some (lowerStr (dropTrailingDot l))
  else none

/-- Error codes of the normalizer, `DomainParseErrorCode`. -/
inductive DomainParseErrorCode where
  | invalidFormat
  | invalidLength
  | noTld
deriving DecidableEq, Repr

/-- One dot-delimited label against `LABEL_REGEX =
`^[a-z0-9]([a-z0-9-]{0,61}[a-z0-9])?$/i``: 1–63 chars, first and last
alphanumeric, hyphens allowed in between. -/
def labelOk : List Char → Bool
  | [] => false
  | c :: rest =>
    isAlnumCI c &&
      (rest.isEmpty ||
        (rest.length ≤ 62 && isAlnumCI (rest.getLastD ' ') &&
          rest.dropLast.all fun d => isAlnumCI d ∨ d = '-'))

/-- `validateAsciiDomain` from `async.ts`: total length 1–253, at least one
dot, no leading/trailing hyphen, no empty label (`..`), every label matching
the label regex. -/
def validateAsciiDomain (l : List Char) : Option DomainParseErrorCode :=
  if l.length < 1 ∨ 253 < l.length then some .invalidLength
  else if ¬l.contains '.' then some .noTld
  else if l.head? = some '-' ∨ l.getLast? = some '-' then some .invalidFormat
  else if (splitDots l).contains [] then some .invalidFormat
  else if (splitDots l).all labelOk then none
  else some .invalidFormat

/-- `extractTld` from `async.ts`: the substring after the last dot, or
nothing when there is no dot or the dot is final. -/
def extractTld (l : List Char) : Option (List Char) :=
  if ¬l.contains '.' then none
  else
    let after := (l.reverse.takeWhile (· ≠ '.')).reverse
    if after = [] then none else some after

/-- `DomainItem`: display form, canonical ASCII form, optional TLD. -/
structure DomainItem where
  display : String
  ascii : String
  tld : Option String
deriving DecidableEq, Repr

/-- `DomainNormalizationResult`: classified outputs of the normalizer. -/
structure DomainNormalizationResult where
  valid : List DomainItem
  invalid : List String
  duplicate : List String
deriving DecidableEq, Repr

/-- The loop body of `normalizeDomains`, threading the `seenAscii` set
(modelled as the list of already-seen keys). -/
def normGo : List String → List (List Char) → DomainNormalizationResult
  | [], _ => ⟨[], [], []⟩
  | raw :: rest, seen =>
    let trimmed := trimChars raw.data
    if trimmed = [] then normGo rest seen
    else
      let cleaned := stripExtras trimmed
      match toASCII cleaned with
      | none =>
        let r := normGo rest seen
        { r with invalid := String.mk trimmed :: r.invalid }
      | some ascii =>
        match validateAsciiDomain ascii with
        | some _ =>
          let r := normGo rest seen
          { r with invalid := String.mk trimmed :: r.invalid }
        | none =>
          let key := lowerStr ascii
          if seen.contains key then
            let r := normGo rest seen
            { r with duplicate := String.mk cleaned :: r.duplicate }
          else
            let r := normGo rest (key :: seen)
            { r with
                valid :=
                  { display := String.mk cleaned
                    ascii := String.mk key
                    tld := (extractTld key).map String.mk } :: r.valid }

/-- `normalizeDomains` from `async.ts`: classify a batch of raw strings
into valid (deduplicated canonical) domains, invalid entries and
duplicates. -/
def normalizeDomains (input : List String) : DomainNormalizationResult :=
  normGo input []

/-! ## Application state and reducer (`src/shared/hooks/useAppState.tsx`)

`Date.now()` is modelled as an explicit `now` argument of the reducer. -/

/-- Pipeline stage of the run state machine. -/
inductive Stage where
  | idle
  | dnsChecking
  | rdapChecking
  | done
  | error
deriving DecidableEq, Repr

/-- `DomainCheckRow`: one table row per domain for the life of a run. -/
structure DomainCheckRow where
  id : String
  domain : String
  ascii : String
  tld : String
  dns : DnsStatus
  rdap : Option ℤ
  verdict : Verdict
  detail : Option String
deriving DecidableEq, Repr

/-- DNS-stage slice of the app state. -/
structure DnsState where
  stage : Stage
  rows : List DomainCheckRow
  errorKey : Option String
  runId : ℤ
  completedAt : Option ℤ
  totalCount : ℤ
  completedCount : ℤ
deriving DecidableEq, Repr

/-- RDAP-stage slice of the app state. -/
structure RdapState where
  checkedCount : ℤ
  totalCount : ℤ
  running : Bool
  errorKey : Option String
deriving DecidableEq, Repr

/-- Snackbar payload shown by the UI slice. -/
structure SnackbarPayload where
  severity : String
  messageKey : String
deriving DecidableEq, Repr

/-- Input slice: committed domain list and its update stamp. -/
structure InputState where
  domains : List DomainItem
  updatedAt : ℤ
deriving DecidableEq, Repr

/-- The whole `AppState`. -/
structure AppState where
  settings : AppSettings
  input : InputState
  dns : DnsState
  rdap : RdapState
  snackbar : Option SnackbarPayload
deriving DecidableEq, Repr

/-- `defaultState` from `useAppState.tsx`. -/
def defaultState : AppState :=
  { settings := defaultSettings
    input := { domains := [], updatedAt := 0 }
    dns :=
      { stage := .idle, rows := [], errorKey := none, runId := 0
        completedAt := none, totalCount := 0, completedCount := 0 }
    rdap :=
      { checkedCount := 0, totalCount := 0, running := false, errorKey := none }
    snackbar := none }

/-- `Partial<AppSettings>` as dispatched by `settings/update`. -/
structure AppSettingsPatch where
  rdapConcurrency : Option JsNum := none
  dnsConcurrency : Option JsNum := none
  dohProviders : Option (List String) := none
  useProxy : Option Bool := none
  enableWhoisFallback : Option Bool := none
deriving DecidableEq, Repr

/-- Object spread `{ ...settings, ...patch }`. -/
def applySettingsPatch (settings : AppSettings) (patch : AppSettingsPatch) :
    AppSettings :=
  { rdapConcurrency := patch.rdapConcurrency.getD settings.rdapConcurrency
    dnsConcurrency := patch.dnsConcurrency.getD settings.dnsConcurrency
    dohProviders := patch.dohProviders.getD settings.dohProviders
    useProxy := patch.useProxy.getD settings.useProxy
    enableWhoisFallback :=
      patch.enableWhoisFallback.getD settings.enableWhoisFallback }

/-- JavaScript `===` on numbers: `NaN` compares unequal to everything. -/
def jsNumEq : JsNum → JsNum → Bool
  | .num a, .num b => a = b
  | .inf, .inf => true
  | .negInf, .negInf => true
  | _, _ => false

/-- `areSettingsEqual` from `useAppState.tsx` (the index-wise provider
comparison of equal-length lists is list equality). -/
def areSettingsEqual (a b : AppSettings) : Bool :=
  jsNumEq a.rdapConcurrency b.rdapConcurrency &&
    jsNumEq a.dnsConcurrency b.dnsConcurrency &&
    a.useProxy = b.useProxy &&
    a.enableWhoisFallback = b.enableWhoisFallback &&
    a.dohProviders = b.dohProviders

/-- `extractTld` as defined locally in `useAppState.tsx` (same semantics as
the normalizer's: substring after the last dot unless absent or final). -/
def extractTldCheckRow (ascii : String) : Option String :=
  (extractTld ascii.data).map String.mk

/-- `normalizeDomainItem` from `useAppState.tsx`: lowercase the trimmed
ASCII form, default the display to it, and keep or recompute a truthy
TLD. -/
def normalizeDomainItem (item : DomainItem) : DomainItem :=
  let ascii := String.mk (lowerStr (trimChars item.ascii.data))
  let displayTrimmed := trimChars item.display.data
  let display := if displayTrimmed ≠ [] then String.mk displayTrimmed else ascii
  let tld :=
    match item.tld with
    | some t => some t
    | none => extractTldCheckRow ascii
  { display := display
    ascii := ascii
    tld := match tld with
           | some t => if t = "" then none else some t
           | none => none }

/-- `dedupeDomains` from `useAppState.tsx`: normalize each entry and keep
the first occurrence of each ASCII key. -/
def dedupeDomainsGo : List DomainItem → List String → List DomainItem
  | [], _ => []
  | item :: rest, seen =>
    let normalized := normalizeDomainItem item
    if seen.contains normalized.ascii then dedupeDomainsGo rest seen
    else normalized :: dedupeDomainsGo rest (normalized.ascii :: seen)

/-- `dedupeDomains` entry point. -/
def dedupeDomains (domains : List DomainItem) : List DomainItem :=
  dedupeDomainsGo domains []

/-- Loop of `mergeDomains`: append normalized incoming entries whose key is
unseen, counting additions. -/
def mergeDomainsGo : List DomainItem → List String → List DomainItem × ℤ
  | [], _ => ([], 0)
  | raw :: rest, seen =>
    let normalized := normalizeDomainItem raw
    if seen.contains normalized.ascii then mergeDomainsGo rest seen
    else
      let (tail, added) := mergeDomainsGo rest (normalized.ascii :: seen)
      (normalized :: tail, added + 1)

/-- `mergeDomains` from `useAppState.tsx`: returns the merged list and the
number of additions (the merged list is the existing one when nothing was
added). -/
def mergeDomains (existing incoming : List DomainItem) :
    List DomainItem × ℤ :=
  if incoming = [] then (existing, 0)
  else
    let seen := existing.map fun item => String.mk (lowerStr item.ascii.data)
    let (adds, added) := mergeDomainsGo incoming seen
    if added = 0 then (existing, 0) else (existing ++ adds, added)

/-- `areDomainListsEqual` from `useAppState.tsx`. -/
def areDomainListsEqual (a b : List DomainItem) : Bool :=
  a.length = b.length &&
    (a.zip b).all fun p =>
      p.1.ascii = p.2.ascii && p.1.display = p.2.display &&
        p.1.tld.getD "" = p.2.tld.getD ""

/-- Actions of the reducer, `AppAction`. -/
inductive AppAction where
  | inputSetDomains (domains : List DomainItem)
  | inputAppendDomains (domains : List DomainItem)
  | inputClear
  | dnsStart (runId : ℤ) (total : ℤ)
  | dnsRetry (runId : ℤ) (total : ℤ)
  | dnsProgress (runId : ℤ) (completed : ℤ)
  | dnsSuccess (runId : ℤ) (rows : List DomainCheckRow)
  | dnsError (runId : ℤ) (messageKey : String)
  | rdapStart (total : ℤ)
  | rdapUpdate (rows : List DomainCheckRow) (checked : ℤ)
  | rdapError (messageKey : String)
  | processComplete (rows : Option (List DomainCheckRow))
  | processReset
  | settingsUpdate (patch : AppSettingsPatch)
  | uiSnackbar (payload : SnackbarPayload)
deriving DecidableEq, Repr

/-- The reducer created by `createReducer` in `useAppState.tsx`;
`now` stands for `Date.now()`. -/
def appReducer (now : ℤ) (state : AppState) : AppAction → AppState
  | .inputSetDomains domains =>
    let normalized := dedupeDomains domains
    if areDomainListsEqual state.input.domains normalized then state
    else
      { state with
          input := { domains := normalized, updatedAt := now }
          dns :=
            { state.dns with
                stage := .idle, rows := [], errorKey := none
                runId := state.dns.runId + 1, completedAt := none
                totalCount := 0, completedCount := 0 }
          rdap :=
            { checkedCount := 0, totalCount := 0, running := false
              errorKey := none } }
  | .inputAppendDomains domains =>
    let merged := mergeDomains state.input.domains domains
    if merged.2 = 0 then state
    else
      { state with
          input := { domains := merged.1, updatedAt := now }
          dns :=
            { state.dns with
                stage := .idle, rows := [], errorKey := none
                runId := state.dns.runId + 1, completedAt := none
                totalCount := 0, completedCount := 0 }
          rdap :=
            { checkedCount := 0, totalCount := 0, running := false
              errorKey := none } }
  | .inputClear =>
    if state.input.domains = [] then state
    else
      { state with
          input := { domains := [], updatedAt := now }
          dns := { defaultState.dns with runId := state.dns.runId + 1 }
          rdap := defaultState.rdap }
  | .dnsStart runId total =>
    { state with
        dns :=
          { stage := .dnsChecking, rows := [], errorKey := none
            runId := runId, completedAt := none, totalCount := total
            completedCount := 0 }
        rdap :=
          { checkedCount := 0, totalCount := 0, running := false
            errorKey := none } }
  | .dnsRetry runId total =>
    { state with
        dns :=
          { state.dns with
              stage := .dnsChecking, errorKey := none, runId := runId
              completedAt := none, totalCount := total, completedCount := 0 }
        rdap :=
          { checkedCount := 0, totalCount := 0, running := false
            errorKey := none } }
  | .dnsProgress runId completed =>
    if state.dns.runId ≠ runId then state
    else
      { state with
          dns :=
            { state.dns with
                completedCount := min completed state.dns.totalCount } }
  | .dnsSuccess runId rows =>
    if state.dns.runId ≠ runId then state
    else
      { state with
          dns :=
            { state.dns with
                stage := if state.rdap.running then .rdapChecking else .done
                rows := rows, completedAt := some now
                completedCount := state.dns.totalCount } }
  | .dnsError runId messageKey =>
    if state.dns.runId ≠ runId then state
    else
      { state with
          dns :=
            { state.dns with stage := .error, errorKey := some messageKey } }
  | .rdapStart total =>
    { state with
        dns := { state.dns with stage := .rdapChecking }
        rdap :=
          { state.rdap with
              running := true, errorKey := none, checkedCount := 0
              totalCount := total } }
  | .rdapUpdate rows checked =>
    { state with
        dns := { state.dns with rows := rows }
        rdap := { state.rdap with running := true, checkedCount := checked } }
  | .rdapError messageKey =>
    { state with
        dns := { state.dns with stage := .error }
        rdap :=
          { state.rdap with running := false, errorKey := some messageKey } }
  | .processComplete rows =>
    { state with
        dns :=
          { state.dns with
              stage := .done, rows := rows.getD state.dns.rows }
        rdap := { state.rdap with running := false } }
  | .processReset =>
    { state with
        dns := { defaultState.dns with runId := state.dns.runId + 1 }
        rdap := defaultState.rdap }
  | .settingsUpdate patch =>
    let nextSettings := sanitizeSettings (applySettingsPatch state.settings patch)
    if areSettingsEqual state.settings nextSettings then state
    else { state with settings := nextSettings }
  | .uiSnackbar payload => { state with snackbar := some payload }

/-! ## DNS pre-check (`src/shared/utils/dohQuery.ts`,
`src/utils/dnsPrecheck.ts`)

Network calls are replaced by an oracle: each provider in the sequence
carries the outcome of its NS query and of its (potential) SOA query —
either a parsed JSON response or a thrown HTTP/network failure. -/

/-- DoH JSON response: `Status` RCODE plus the record-type codes found in
the `Answer` and `Authority` sections (only the `type` field of a record is
ever inspected). -/
structure DohResponse where
  status : ℤ
  answer : List ℤ
  authority : List ℤ
deriving DecidableEq, Repr

/-- `hasRecordOfType`: some record in `Answer ++ Authority` has the target
type code. -/
def hasRecordOfType (resp : DohResponse) (target : ℤ) : Bool :=
  (resp.answer ++ resp.authority).any fun t => t = target

/-- `interpretNsResponse`: RCODE 3 is NXDOMAIN, RCODE 0 is delegated or
not depending on an NS record (type 2), anything else is an error. -/
def interpretNsResponse (resp : DohResponse) : DnsStatus :=
  if resp.status = 3 then .nxdomain
  else if resp.status = 0 then
    if hasRecordOfType resp 2 then .hasNs else .noNs
  else .error

/-- Outcome of one `requestDohRecord` call: a parsed response, or a thrown
HTTP/network failure. -/
inductive DohOutcome where
  | ok (resp : DohResponse)
  | thrown
deriving DecidableEq, Repr

/-- One provider of the fallback sequence together with the oracle outcomes
of its NS and SOA requests. -/
structure DohProviderBehavior where
  id : String
  nsOutcome : DohOutcome
  soaOutcome : DohOutcome
deriving DecidableEq, Repr

/-- `DnsPrecheckResult`. -/
structure DnsPrecheckResult where
  status : DnsStatus
  provider : Option String
  detail : Option String
deriving DecidableEq, Repr

/-- The provider loop of `runDohQuery` / `runDnsPrecheck`, threading the
`lastDetail` accumulator. -/
def runDohQueryGo : List DohProviderBehavior → Option String → DnsPrecheckResult
  | [], lastDetail =>
    { status := .error, provider := none
      detail := some (lastDetail.getD "dns.detail.unknown-error") }
  | p :: rest, _ =>
    match p.nsOutcome with
    | .thrown => runDohQueryGo rest (some "dns.detail.network-error")
    | .ok nsResp =>
      match interpretNsResponse nsResp with
      | .hasNs => { status := .hasNs, provider := some p.id, detail := none }
      | .nxdomain =>
        { status := .nxdomain, provider := some p.id, detail := none }
      | .noNs =>
        match p.soaOutcome with
        | .thrown => runDohQueryGo rest (some "dns.detail.network-error")
        | .ok soaResp =>
          if soaResp.status = 3 then
            { status := .nxdomain, provider := some p.id, detail := none }
          else if hasRecordOfType soaResp 6 then
            { status := .hasNs, provider := some p.id, detail := none }
          else { status := .noNs, provider := some p.id, detail := none }
      | _ => runDohQueryGo rest (some "dns.detail.unexpected-status")

/-- `runDohQuery` over an ordered provider sequence. -/
def runDohQuery (providers : List DohProviderBehavior) : DnsPrecheckResult :=
  runDohQueryGo providers none

/-- Modelled from the spec: the decisive classification a single provider
yields, if any — NS RCODE 3 gives `nxdomain`; RCODE 0 with an NS record
gives `has-ns`; RCODE 0 without one consults the SOA query of the same
provider (RCODE 3 `nxdomain`, SOA record `has-ns`, otherwise `no-ns`,
network failure non-decisive); any other RCODE or a network failure is
non-decisive. -/
def providerDecision (p : DohProviderBehavior) : Option (DnsStatus × String) :=
  match p.nsOutcome with
  | .thrown => none
  | .ok ns =>
    if ns.status = 3 then some (.nxdomain, p.id)
    else if ns.status = 0 ∧ hasRecordOfType ns 2 then some (.hasNs, p.id)
    else if ns.status = 0 then
      match p.soaOutcome with
      | .thrown => none
      | .ok soa =>
        if soa.status = 3 then some (.nxdomain, p.id)
        else if hasRecordOfType soa 6 then some (.hasNs, p.id)
        else some (.noNs, p.id)
    else none

/-- Modelled from the spec: the failure detail a non-decisive provider
leaves behind (`none` for a decisive provider). -/
def providerFailDetail (p : DohProviderBehavior) : Option String :=
  match p.nsOutcome with
  | .thrown => some "dns.detail.network-error"
  | .ok ns =>
    if ns.status = 3 then none
    else if ns.status = 0 then
      match p.soaOutcome with
      | .thrown =>
        if hasRecordOfType ns 2 then none
        else some "dns.detail.network-error"
      | .ok _ => none
    else some "dns.detail.unexpected-status"

/-! ## RDAP lookup (`src/shared/utils/rdapQuery.ts`) -/

/-- The raw `Retry-After` header as consumed by `parseRetryAfter`:
missing/empty (falsy), a string that `Number(·)` parses (the resulting JS
number, never `NaN`), a string that only `Date.parse` accepts (carried as
its offset in milliseconds from `Date.now()`), or neither. -/
inductive RetryAfterValue where
  | absent
  | numeric (n : JsNum)
  | httpDate (deltaMs : ℤ)
  | malformed
deriving DecidableEq, Repr

/-- `parseRetryAfter`: a numeric header value is returned as-is; an
HTTP-date strictly in the future is converted with
`Math.round(deltaMs / 1000)`; anything else yields nothing. -/
def parseRetryAfter : RetryAfterValue → Option JsNum
  | .absent => none
  | .numeric n => match n with
    | .nan => none
    | m => some m
  | .httpDate deltaMs =>
    if 0 < deltaMs then some (.num (((deltaMs + 500) / 1000 : ℤ) : ℚ))
    else none
  | .malformed => none

/-- An HTTP response as classified by `runRdapQuery`: status code,
`Retry-After` header and the `objectClassName` of the (successfully
parsed) JSON body. -/
structure RdapHttpResponse where
  status : ℤ
  retryAfter : RetryAfterValue
  objectClassName : Option String
deriving DecidableEq, Repr

/-- `runRdapQuery` from `rdapQuery.ts`: classify one RDAP HTTP response
into an `RdapCheckResult` (the numeric `detailParams.status` of the
server-error / http-error branches is carried by `detailKey` selection
only; `detailParams.retryAfter` is the `retryAfter` field). -/
def runRdapQuery (resp : RdapHttpResponse) : RdapCheckResult :=
  if resp.status = 404 then
    { status := 404, available := some true
      detailKey := "rdap.detail.status-404" }
  else if resp.status = 429 then
    let retryAfter := parseRetryAfter resp.retryAfter
    let surfaced := match retryAfter with
      | some n => n.truthy
      | none => false
    { status := 429, available := none
      detailKey :=
        if surfaced then "rdap.detail.status-429-wait" else "rdap.detail.status-429"
      retryAfter := if surfaced then retryAfter else none }
  else if resp.status = 200 then
    if resp.objectClassName = some "domain" then
      { status := 200, available := some false
        detailKey := "rdap.detail.status-200" }
    else
      { status := 200, available := none
        detailKey := "rdap.detail.unexpected-object" }
  else if resp.status = 501 ∨ resp.status = 400 ∨ resp.status = 405 then
    { status := resp.status, available := none, unsupported := true
      detailKey := "rdap.detail.unsupported" }
  else if 500 ≤ resp.status then
    { status := resp.status, available := none
      detailKey := "rdap.detail.server-error" }
  else
    { status := resp.status, available := none
      detailKey := "rdap.detail.http-error" }

/-! ## RDAP retry envelope (`runRdapQueryWithRetry`)

The attempts are driven by an oracle mapping the attempt number to the
outcome of `runRdapQuery` on that attempt: a returned classification or a
thrown network error. The transcript records the final outcome, every
`delay(…)` wait in milliseconds, and the number of attempts made. -/

/-- Outcome of one `runRdapQuery` attempt (or of the whole retry run): a
returned classification, or a thrown network error. -/
inductive RdapOutcome where
  | ok (r : RdapCheckResult)
  | thrown
deriving DecidableEq, Repr

/-- Transcript of one `runRdapQueryWithRetry` execution. -/
structure RetryRun where
  outcome : RdapOutcome
  waits : List ℚ
  attemptsMade : ℕ
deriving DecidableEq, Repr

/-- The finite value of a JS number, `0` otherwise. -/
def JsNum.toQ : JsNum → ℚ
  | .num q => q
  | _ => 0

/-- The wait before retrying a 429 result: the `Retry-After` seconds
(times 1000) when that value is a positive finite number, else
`baseDelay * attempt` (an absent `detailParams.retryAfter` reads as
`undefined`, whose numeric coercion path yields `NaN`). -/
def rdapRetryWait (baseDelay : ℚ) (attempt : ℕ) (r : RdapCheckResult) : ℚ :=
  let seconds := (r.retryAfter.getD .nan)
  if seconds.isFinite && seconds.gtZero then seconds.toQ * 1000
  else baseDelay * attempt

/-- The `for` loop of `runRdapQueryWithRetry`: `fuel` counts the remaining
iterations (`attempts - attempt + 1`), `lastResult` is the last 429 result
seen, `waits` accumulates delays in reverse. -/
def rdapRetryGo (oracle : ℕ → RdapOutcome) (attempts : ℕ)
    (baseDelay : ℚ) :
    ℕ → ℕ → Option RdapCheckResult → List ℚ → RetryRun
  | 0, attempt, lastResult, waits =>
    (match lastResult with
     | some r => { outcome := .ok r, waits := waits.reverse
                   attemptsMade := attempt - 1 }
     | none => { outcome := .thrown, waits := waits.reverse
                 attemptsMade := attempt - 1 })
  | fuel + 1, attempt, lastResult, waits =>
    match oracle attempt with
    | .ok r =>
      if r.status = 429 ∧ attempt < attempts then
        rdapRetryGo oracle attempts baseDelay fuel (attempt + 1) (some r)
          (rdapRetryWait baseDelay attempt r :: waits)
      else { outcome := .ok r, waits := waits.reverse, attemptsMade := attempt }
    | .thrown =>
      if attempts ≤ attempt then
        { outcome := .thrown, waits := waits.reverse, attemptsMade := attempt }
      else
        rdapRetryGo oracle attempts baseDelay fuel (attempt + 1) lastResult
          ((baseDelay * attempt : ℚ) :: waits)

/-- Retry options of `runRdapQueryWithRetry` (`attempts` includes the first
call; `delayMs` is the base of the linear backoff). -/
structure RdapRetryOptions where
  attempts : Option ℤ := none
  delayMs : Option ℚ := none
deriving DecidableEq, Repr

/-- `runRdapQueryWithRetry`: up to `max(attempts ?? 3, 1)` attempts with
base delay `max(delayMs ?? 1000, 0)`. -/
def runRdapQueryWithRetry (oracle : ℕ → RdapOutcome)
    (options : RdapRetryOptions) : RetryRun :=
  let attempts := (max (options.attempts.getD 3) 1).toNat
  let baseDelay := max (options.delayMs.getD 1000) 0
  rdapRetryGo oracle attempts baseDelay attempts 1 none []

/-! ## Bounded concurrency queue (`src/shared/hooks/useConcurrentQueue.ts`)

The event-loop execution is modelled as a transition system: an `enqueue`
event is one `enqueue(task)` call, a `finish` event is the settlement of a
running task (its `.finally` handler: decrement the active count and pull
the next queued task), and a `clear` event empties the pending queue.
`active` mirrors `activeCountRef.current`; `running` is the list of tasks
started and not yet settled; `started` and `seen` are history variables
recording every task ever started and ever enqueued. -/

/-- State of the concurrent queue. -/
structure QueueState where
  active : ℕ
  queued : List ℕ
  running : List ℕ
  started : List ℕ
  seen : List ℕ
deriving DecidableEq, Repr

/-- The initial queue state. -/
def initQueue : QueueState :=
  { active := 0, queued := [], running := [], started := [], seen := [] }

/-- `run()` inside `enqueue`: bump the active count and start the task. -/
def startTask (s : QueueState) (id : ℕ) : QueueState :=
  { s with
      active := s.active + 1
      running := id :: s.running
      started := id :: s.started }

/-- Events of the queue's event loop. -/
inductive QueueEvent where
  | enqueue (id : ℕ)
  | finish (id : ℕ)
  | clear
deriving DecidableEq, Repr

/-- One transition: `enqueue` runs the task when a slot is free and queues
it otherwise; `finish` decrements the active count (clamped at 0 like
`Math.max(active - 1, 0)`) and then `processQueue` pulls the next queued
task when below the limit; `clear` drops the pending queue. -/
def queueStep (c : ℕ) (s : QueueState) : QueueEvent → QueueState
  | .enqueue id =>
    let s := { s with seen := id :: s.seen }
    if s.active < c then startTask s id
    else { s with queued := s.queued ++ [id] }
  | .finish id =>
    let s := { s with active := s.active - 1, running := s.running.erase id }
    if c ≤ s.active then s
    else
      match s.queued with
      | [] => s
      | next :: rest => startTask { s with queued := rest } next
  | .clear => { s with queued := [] }

/-- Validity of an event: a task can settle only while running, and each
`enqueue` call is a fresh promise (fresh id). -/
def validEvent (s : QueueState) : QueueEvent → Bool
  | .enqueue id => ¬s.seen.contains id
  | .finish id => s.running.contains id
  | .clear => true

/-- A valid event trace from a state. -/
def validTrace (c : ℕ) (s : QueueState) : List QueueEvent → Bool
  | [] => true
  | e :: t => validEvent s e && validTrace c (queueStep c s e) t

/-- Run a trace of events. -/
def runTrace (c : ℕ) (s : QueueState) : List QueueEvent → QueueState
  | [] => s
  | e :: t => runTrace c (queueStep c s e) t

/-- Ghost predicate: a canonical key as stored by the normalizer — it
passes `validateAsciiDomain` and is already lowercase. -/
def canonKey (k : List Char) : Prop :=
  validateAsciiDomain k = none ∧ lowerStr k = k

/-- Ghost well-formedness of a queue state reachable under valid traces:
queued tasks have not started, every queued/started task was enqueued,
running tasks have started, and the pending queue holds no duplicates. -/
def queueWf (s : QueueState) : Prop :=
  (∀ x ∈ s.queued, x ∉ s.started) ∧
  (∀ x ∈ s.queued, x ∈ s.seen) ∧
  (∀ x ∈ s.started, x ∈ s.seen) ∧
  (∀ x ∈ s.running, x ∈ s.started) ∧
  s.queued.Nodup

/-- A concrete non-decisive RDAP classification (HTTP 503) used as a
counterexample input for the retry envelope. -/
def rdap503Result : RdapCheckResult :=
  { status := 503, available := none, detailKey := "rdap.detail.server-error" }

/-! # Theorems -/

/-! ## Helper lemmas -/

/-- The accumulator-passing dedup keeps the accumulator duplicate-free. -/
theorem dedupKeepFirst_foldl_nodup (xs : List String) :
    ∀ acc : List String, acc.Nodup →
      (xs.foldl
        (fun acc x => if acc.contains x then acc else acc ++ [x]) acc).Nodup := by
  induction xs with
  | nil => intro acc h; simpa using h
  | cons x xs ih =>
    intro acc h
    simp only [List.foldl_cons]
    by_cases hc : acc.contains x
    · rw [if_pos hc]; exact ih acc h
    · rw [if_neg hc]
      refine ih _ ?_
      have hx : x ∉ acc := by simpa using hc
      simp [List.nodup_append, h, hx]

/-- `Array.from(new Set(xs))` yields a duplicate-free list. -/
theorem dedupKeepFirst_nodup (xs : List String) : (dedupKeepFirst xs).Nodup :=
  dedupKeepFirst_foldl_nodup xs [] List.nodup_nil

/-- The sanitized provider list is non-empty, duplicate-free and drawn from
the two known providers. -/
theorem sanitizedProviders_ok (s : AppSettings) :
    (sanitizeSettings s).dohProviders ≠ [] ∧
    (sanitizeSettings s).dohProviders.Nodup ∧
    ∀ p ∈ (sanitizeSettings s).dohProviders,
      p = "google" ∨ p = "cloudflare" := by
  have hprov : (sanitizeSettings s).dohProviders =
      (if ((dedupKeepFirst s.dohProviders).filter
            (fun p => p = "google" ∨ p = "cloudflare")).length > 0 then
        (dedupKeepFirst s.dohProviders).filter
          (fun p => p = "google" ∨ p = "cloudflare")
      else defaultSettings.dohProviders) := rfl
  rw [hprov]
  split
  · next hlen =>
    refine ⟨?_, ?_, ?_⟩
    · exact List.ne_nil_of_length_pos hlen
    · exact (dedupKeepFirst_nodup s.dohProviders).filter _
    · intro p hp
      have := List.of_mem_filter hp
      simpa using this
  · exact ⟨by simp [defaultSettings], by simp [defaultSettings],
      by intro p hp; simpa [defaultSettings] using hp⟩

/-! ## C2 — verdict reconciler with absent RDAP result -/

/-- C2 (counterexample): the claim states that the reconciler called with
`rdapResult = null` returns `available` for `dnsStatus = no-ns`; the code
returns `undetermined` there. -/
theorem c2_null_rdap_counterexample :
    deriveVerdictWithRdap .noNs none ≠ .available := by
  decide

/-- C2 (amended): with `rdapResult = null`, `deriveVerdictWithRdap` returns
`taken` for `has-ns` and `undetermined` for `error`, `no-ns` and
`nxdomain`; the claimed table (`no-ns`/`nxdomain → available`) is the one
implemented by the DNS-only derivation `deriveDnsVerdict`. -/
theorem c2_null_rdap_amended :
    (∀ status : DnsStatus,
      deriveVerdictWithRdap status none =
        if status = .hasNs then .taken else .undetermined) ∧
    (∀ status : DnsStatus,
      deriveDnsVerdict status =
        if status = .hasNs then .taken
        else if status = .error then .undetermined
        else .available) := by
  constructor <;> intro status <;> cases status <;> rfl

/-! ## C6 — single RDAP lookup classification -/

/-- C6: classification of every HTTP response by `runRdapQuery`: 404 means
available; 200 with a domain object means registered; 200 otherwise is
unknown with an unexpected-object detail; 429 is unknown and surfaces a
present-and-positive `Retry-After` (either numeric seconds or an HTTP-date
converted to seconds from now); 400/405/501 are flagged unsupported; 500+
and all remaining codes are unknown with an error detail. -/
theorem c6_rdap_response_classification (resp : RdapHttpResponse) :
    (resp.status = 404 → runRdapQuery resp =
      { status := 404, available := some true
        detailKey := "rdap.detail.status-404" }) ∧
    (resp.status = 200 → resp.objectClassName = some "domain" →
      (runRdapQuery resp).available = some false) ∧
    (resp.status = 200 → resp.objectClassName ≠ some "domain" →
      (runRdapQuery resp).available = none ∧
        (runRdapQuery resp).detailKey = "rdap.detail.unexpected-object") ∧
    (resp.status = 429 → (runRdapQuery resp).available = none) ∧
    (resp.status = 429 → ∀ n : JsNum,
      resp.retryAfter = .numeric n → n.gtZero →
        (runRdapQuery resp).retryAfter = some n) ∧
    (resp.status = 429 → ∀ d : ℤ,
      resp.retryAfter = .httpDate d → 0 < (d + 500) / 1000 →
        (runRdapQuery resp).retryAfter =
          some (.num (((d + 500) / 1000 : ℤ) : ℚ))) ∧
    (resp.status = 400 ∨ resp.status = 405 ∨ resp.status = 501 →
      (runRdapQuery resp).available = none ∧
        (runRdapQuery resp).unsupported = true) ∧
    (500 ≤ resp.status → resp.status ≠ 501 →
      (runRdapQuery resp).available = none ∧
        (runRdapQuery resp).detailKey = "rdap.detail.server-error") ∧
    (resp.status < 500 → resp.status ≠ 200 → resp.status ≠ 400 →
      resp.status ≠ 404 → resp.status ≠ 405 → resp.status ≠ 429 →
      (runRdapQuery resp).available = none ∧
        (runRdapQuery resp).detailKey = "rdap.detail.http-error") := by
  refine ⟨?_, ?_, ?_, ?_, ?_, ?_, ?_, ?_, ?_⟩
  · intro h
    unfold runRdapQuery
    rw [if_pos h]
  · intro h hobj
    unfold runRdapQuery
    rw [if_neg (by omega), if_neg (by omega), if_pos h, if_pos hobj]
  · intro h hobj
    unfold runRdapQuery
    rw [if_neg (by omega), if_neg (by omega), if_pos h, if_neg hobj]
    exact ⟨rfl, rfl⟩
  · intro h
    unfold runRdapQuery
    rw [if_neg (by omega), if_pos h]
  · intro h n hra hpos
    unfold runRdapQuery
    rw [if_neg (by omega), if_pos h, hra]
    cases n with
    | num q =>
      have hq : (0 : ℚ) < q := by simpa [JsNum.gtZero] using hpos
      simp [parseRetryAfter, JsNum.truthy, hq.ne']
    | nan => simp [JsNum.gtZero] at hpos
    | inf => simp [parseRetryAfter, JsNum.truthy]
    | negInf => simp [JsNum.gtZero] at hpos
  · intro h d hra hpos
    have hd : 0 < d := by omega
    have hne : ((d + 500) / 1000 : ℤ) ≠ 0 := by omega
    unfold runRdapQuery
    rw [if_neg (by omega), if_pos h, hra]
    have hcast : (((d + 500) / 1000 : ℤ) : ℚ) ≠ 0 := Int.cast_ne_zero.mpr hne
    simp [parseRetryAfter, hd, JsNum.truthy, hcast]
  · rintro (h | h | h) <;>
      (unfold runRdapQuery
       rw [if_neg (by omega), if_neg (by omega), if_neg (by omega),
         if_pos (by omega)]
       exact ⟨rfl, rfl⟩)
  · intro h500 h501
    unfold runRdapQuery
    rw [if_neg (by omega), if_neg (by omega), if_neg (by omega),
      if_neg (by omega), if_pos h500]
    exact ⟨rfl, rfl⟩
  · intro hlt h200 h400 h404 h405 h429
    unfold runRdapQuery
    rw [if_neg h404, if_neg h429, if_neg h200, if_neg (by omega),
      if_neg (by omega)]
    exact ⟨rfl, rfl⟩

/-- C6 (witness): the classification applied to concrete responses — a 404,
a 429 carrying `Retry-After: 7`, and a 503. -/
theorem c6_rdap_response_classification_witness :
    runRdapQuery { status := 404, retryAfter := .absent, objectClassName := none } =
      { status := 404, available := some true
        detailKey := "rdap.detail.status-404" } ∧
    (runRdapQuery
      { status := 429, retryAfter := .numeric (.num 7)
        objectClassName := none }).retryAfter = some (.num 7) ∧
    (runRdapQuery
      { status := 503, retryAfter := .absent
        objectClassName := none }).detailKey = "rdap.detail.server-error" := by
  refine ⟨?_, ?_, ?_⟩
  · exact (c6_rdap_response_classification _).1 rfl
  · exact (c6_rdap_response_classification _).2.2.2.2.1 rfl (.num 7) rfl (by decide)
  · exact ((c6_rdap_response_classification _).2.2.2.2.2.2.2.1 (by decide)
      (by decide)).2

/-! ## C9 — settings sanitization invariant -/

/-- C9: every settings value produced by `sanitizeSettings` (used both by
the `settings/update` reducer case and when loading persisted settings) has
`rdapConcurrency` an integer in `[1, 12]` (default 3 when the input is not
finite, the floor for in-range fractional inputs), `dnsConcurrency` an
integer in `[200, 5000]` (default 1000 when not finite), and a non-empty
duplicate-free provider list drawn from google/cloudflare; a
`settings/update` action leaves the settings unchanged or in sanitized
form. -/
theorem c9_settings_sanitization :
    (∀ s : AppSettings,
      (∃ n : ℤ, (sanitizeSettings s).rdapConcurrency = .num (n : ℚ) ∧
        1 ≤ n ∧ n ≤ 12) ∧
      (∃ n : ℤ, (sanitizeSettings s).dnsConcurrency = .num (n : ℚ) ∧
        200 ≤ n ∧ n ≤ 5000) ∧
      (s.rdapConcurrency.isFinite = false →
        (sanitizeSettings s).rdapConcurrency = .num 3) ∧
      (s.dnsConcurrency.isFinite = false →
        (sanitizeSettings s).dnsConcurrency = .num 1000) ∧
      (∀ q : ℚ, s.rdapConcurrency = .num q → 1 ≤ q → q ≤ 12 →
        (sanitizeSettings s).rdapConcurrency = .num ((⌊q⌋ : ℤ) : ℚ)) ∧
      (sanitizeSettings s).dohProviders ≠ [] ∧
      (sanitizeSettings s).dohProviders.Nodup ∧
      (∀ p ∈ (sanitizeSettings s).dohProviders,
        p = "google" ∨ p = "cloudflare")) ∧
    (∀ now state patch,
      (appReducer now state (.settingsUpdate patch)).settings = state.settings ∨
      (appReducer now state (.settingsUpdate patch)).settings =
        sanitizeSettings (applySettingsPatch state.settings patch)) := by
  constructor
  · intro s
    refine ⟨?_, ?_, ?_, ?_, ?_, ?_, ?_, ?_⟩
    · cases h : s.rdapConcurrency with
      | num q =>
        refine ⟨min (max (JsNum.trunc q) 1) 12, ?_, ?_, ?_⟩
        · simp [sanitizeSettings, h]
        · omega
        · omega
      | nan => exact ⟨3, by simp [sanitizeSettings, h, defaultSettings], by omega, by omega⟩
      | inf => exact ⟨3, by simp [sanitizeSettings, h, defaultSettings], by omega, by omega⟩
      | negInf => exact ⟨3, by simp [sanitizeSettings, h, defaultSettings], by omega, by omega⟩
    · cases h : s.dnsConcurrency with
      | num q =>
        refine ⟨min (max (JsNum.trunc q) 200) 5000, ?_, ?_, ?_⟩
        · simp [sanitizeSettings, h]
        · omega
        · omega
      | nan => exact ⟨1000, by simp [sanitizeSettings, h, defaultSettings], by omega, by omega⟩
      | inf => exact ⟨1000, by simp [sanitizeSettings, h, defaultSettings], by omega, by omega⟩
      | negInf => exact ⟨1000, by simp [sanitizeSettings, h, defaultSettings], by omega, by omega⟩
    · intro hfin
      cases h : s.rdapConcurrency <;>
        simp_all [sanitizeSettings, JsNum.isFinite, defaultSettings]
    · intro hfin
      cases h : s.dnsConcurrency <;>
        simp_all [sanitizeSettings, JsNum.isFinite, defaultSettings]
    · intro q hq h1 h12
      have htr : JsNum.trunc q = ⌊q⌋ := by
        unfold JsNum.trunc
        rw [if_pos (by linarith)]
      have hfl1 : 1 ≤ ⌊q⌋ := by
        exact_mod_cast Int.le_floor.mpr (by exact_mod_cast h1)
      have hfl12 : ⌊q⌋ ≤ 12 := by
        have : (⌊q⌋ : ℤ) ≤ ⌊(12 : ℚ)⌋ := Int.floor_le_floor h12
        simpa using this
      have hmm : min (max (⌊q⌋ : ℤ) 1) 12 = ⌊q⌋ := by
        rw [max_eq_left hfl1, min_eq_left hfl12]
      simp [sanitizeSettings, hq, htr, hmm]
    · have := sanitizedProviders_ok s
      exact this.1
    · exact (sanitizedProviders_ok s).2.1
    · exact (sanitizedProviders_ok s).2.2
  · intro now state patch
    simp only [appReducer]
    split
    · exact Or.inl rfl
    · exact Or.inr rfl

/-- C9 (witness): sanitization at concrete inputs — `NaN` concurrency falls
back to the default 3, and an in-range fractional 4.5 truncates to 4. -/
theorem c9_settings_sanitization_witness :
    (sanitizeSettings
      { rdapConcurrency := .nan, dnsConcurrency := .num 1000
        dohProviders := ["google"], useProxy := false
        enableWhoisFallback := false }).rdapConcurrency = .num 3 ∧
    (sanitizeSettings
      { rdapConcurrency := .num (9 / 2), dnsConcurrency := .num 1000
        dohProviders := ["google"], useProxy := false
        enableWhoisFallback := false }).rdapConcurrency = .num ((4 : ℤ) : ℚ) := by
  constructor
  · exact (c9_settings_sanitization.1 _).2.2.1 rfl
  · have h := (c9_settings_sanitization.1
      { rdapConcurrency := .num (9 / 2), dnsConcurrency := .num 1000
        dohProviders := ["google"], useProxy := false
        enableWhoisFallback := false }).2.2.2.2.1 (9 / 2) rfl (by norm_num)
      (by norm_num)
    rw [h]
    norm_num

/-! ## C3 — RDAP retry envelope -/

/-- Structure of every `rdapRetryGo` execution started with at least one
iteration of fuel: the attempt count is bounded by `attempts`, exactly one
recorded wait precedes each retried attempt (a 429 result waits
`rdapRetryWait`, a thrown error waits `base * attempt`), and the final
attempt's own outcome is returned or rethrown verbatim. -/
theorem rdapRetryGo_spec (oracle : ℕ → RdapOutcome) (attempts : ℕ) (base : ℚ) :
    ∀ fuel attempt lastResult waits, 1 ≤ fuel → 1 ≤ attempt →
      attempt + fuel = attempts + 1 →
      attempt ≤ (rdapRetryGo oracle attempts base fuel attempt lastResult
        waits).attemptsMade ∧
      (rdapRetryGo oracle attempts base fuel attempt lastResult
        waits).attemptsMade ≤ attempts ∧
      ∃ newWaits : List ℚ,
        (rdapRetryGo oracle attempts base fuel attempt lastResult waits).waits
            = waits.reverse ++ newWaits ∧
        newWaits.length =
          (rdapRetryGo oracle attempts base fuel attempt lastResult
            waits).attemptsMade - attempt ∧
        (∀ i : ℕ, ∀ hi : i < newWaits.length,
          (∀ r, oracle (attempt + i) = .ok r → r.status = 429 ∧
            newWaits.get ⟨i, hi⟩ = rdapRetryWait base (attempt + i) r) ∧
          (oracle (attempt + i) = .thrown →
            newWaits.get ⟨i, hi⟩ = base * ((attempt + i : ℕ) : ℚ))) ∧
        (∀ r, oracle (rdapRetryGo oracle attempts base fuel attempt lastResult
            waits).attemptsMade = .ok r →
          (rdapRetryGo oracle attempts base fuel attempt lastResult
            waits).outcome = .ok r) ∧
        (oracle (rdapRetryGo oracle attempts base fuel attempt lastResult
            waits).attemptsMade = .thrown →
          (rdapRetryGo oracle attempts base fuel attempt lastResult
            waits).outcome = .thrown) := by
  intro fuel
  induction fuel with
  | zero => intro attempt lastResult waits h1 _ _; omega
  | succ fuel ih =>
    intro attempt lastResult waits _ hatt hsum
    cases h : oracle attempt with
    | ok r =>
      by_cases hc : r.status = 429 ∧ attempt < attempts
      · have hfuel1 : 1 ≤ fuel := by omega
        have hgo : rdapRetryGo oracle attempts base (fuel + 1) attempt
            lastResult waits =
            rdapRetryGo oracle attempts base fuel (attempt + 1) (some r)
              (rdapRetryWait base attempt r :: waits) := by
          simp only [rdapRetryGo, h, if_pos hc]
        rw [hgo]
        obtain ⟨ih1, ih2, nw, ihw, ihlen, ihidx, ihok, ihthrown⟩ :=
          ih (attempt + 1) (some r) (rdapRetryWait base attempt r :: waits)
            hfuel1 (by omega) (by omega)
        refine ⟨by omega, ih2, rdapRetryWait base attempt r :: nw, ?_, ?_,
          ?_, ihok, ihthrown⟩
        · rw [ihw, List.reverse_cons, List.append_assoc]
          rfl
        · simp only [List.length_cons]
          omega
        · intro i hi
          match i, hi with
          | 0, _ =>
            constructor
            · intro r2 hr2
              rw [Nat.add_zero] at hr2
              rw [h] at hr2
              cases hr2
              exact ⟨hc.1, rfl⟩
            · intro hr2
              rw [Nat.add_zero, h] at hr2
              cases hr2
          | j + 1, hj =>
            have hj2 : j < nw.length := by
              simpa using hj
            have hidx := ihidx j hj2
            have harith : attempt + 1 + j = attempt + (j + 1) := by omega
            rw [harith] at hidx
            have hget : (rdapRetryWait base attempt r :: nw).get ⟨j + 1, hj⟩ =
                nw.get ⟨j, hj2⟩ := rfl
            rw [hget]
            exact hidx
      · have hgo : rdapRetryGo oracle attempts base (fuel + 1) attempt
            lastResult waits =
            { outcome := .ok r, waits := waits.reverse
              attemptsMade := attempt } := by
          simp only [rdapRetryGo, h, if_neg hc]
        rw [hgo]
        refine ⟨le_refl _, show attempt ≤ attempts by omega, [], by simp,
          by simp, ?_, ?_, ?_⟩
        · intro i hi
          simp at hi
        · intro r2 hr2
          simp only at hr2
          rw [h] at hr2
          cases hr2
          rfl
        · intro hr2
          simp only at hr2
          rw [h] at hr2
          cases hr2
    | thrown =>
      by_cases hc : attempts ≤ attempt
      · have hgo : rdapRetryGo oracle attempts base (fuel + 1) attempt
            lastResult waits =
            { outcome := .thrown, waits := waits.reverse
              attemptsMade := attempt } := by
          simp only [rdapRetryGo, h, if_pos hc]
        rw [hgo]
        refine ⟨le_refl _, show attempt ≤ attempts by omega, [], by simp,
          by simp, ?_, ?_, ?_⟩
        · intro i hi
          simp at hi
        · intro r2 hr2
          simp only at hr2
          rw [h] at hr2
          cases hr2
        · intro _
          rfl
      · have hfuel1 : 1 ≤ fuel := by omega
        have hgo : rdapRetryGo oracle attempts base (fuel + 1) attempt
            lastResult waits =
            rdapRetryGo oracle attempts base fuel (attempt + 1) lastResult
              ((base * attempt : ℚ) :: waits) := by
          simp only [rdapRetryGo, h, if_neg hc]
        rw [hgo]
        obtain ⟨ih1, ih2, nw, ihw, ihlen, ihidx, ihok, ihthrown⟩ :=
          ih (attempt + 1) lastResult ((base * attempt : ℚ) :: waits)
            hfuel1 (by omega) (by omega)
        refine ⟨by omega, ih2, (base * attempt : ℚ) :: nw, ?_, ?_, ?_,
          ihok, ihthrown⟩
        · rw [ihw, List.reverse_cons, List.append_assoc]
          rfl
        · simp only [List.length_cons]
          omega
        · intro i hi
          match i, hi with
          | 0, _ =>
            constructor
            · intro r2 hr2
              rw [Nat.add_zero, h] at hr2
              cases hr2
            · intro _
              simp
          | j + 1, hj =>
            have hj2 : j < nw.length := by
              simpa using hj
            have hidx := ihidx j hj2
            have harith : attempt + 1 + j = attempt + (j + 1) := by omega
            rw [harith] at hidx
            have hget : ((base * attempt : ℚ) :: nw).get ⟨j + 1, hj⟩ =
                nw.get ⟨j, hj2⟩ := rfl
            rw [hget]
            exact hidx

/-- C3 (counterexample): the claim states that every failing non-decisive
outcome (not a decisive 200/404) is retried with linear backoff; but an
attempt returning an HTTP 503 classification — neither 200 nor 404 — is
returned immediately by `runRdapQueryWithRetry` after a single attempt with
no backoff wait. -/
theorem c3_retry_counterexample :
    (runRdapQueryWithRetry (fun _ => .ok rdap503Result)
      { attempts := some 3, delayMs := some 1000 }).attemptsMade = 1 ∧
    (runRdapQueryWithRetry (fun _ => .ok rdap503Result)
      { attempts := some 3, delayMs := some 1000 }).waits = [] ∧
    rdap503Result.status ≠ 200 ∧ rdap503Result.status ≠ 404 ∧
    rdap503Result.status ≠ 429 ∧
    ¬2 ≤ (runRdapQueryWithRetry (fun _ => .ok rdap503Result)
      { attempts := some 3, delayMs := some 1000 }).attemptsMade := by
  refine ⟨rfl, rfl, by decide, by decide, by decide, by decide⟩

/-- C3 (amended): with the page's retry configuration (3 attempts, base
1000 ms), `runRdapQueryWithRetry` makes between 1 and 3 attempts; exactly
one wait precedes each retried attempt, and a retried attempt is either a
429 result — waiting `Retry-After × 1000` ms when that value is a positive
finite number and `base × attemptNumber` otherwise — or a thrown network
error, waiting `base × attemptNumber`; every returned non-429 result
(decisive 200/404 as well as any other classification) and the final
attempt's outcome are returned immediately without further retries. -/
theorem c3_retry_envelope_amended (oracle : ℕ → RdapOutcome) :
    1 ≤ (runRdapQueryWithRetry oracle
      { attempts := some 3, delayMs := some 1000 }).attemptsMade ∧
    (runRdapQueryWithRetry oracle
      { attempts := some 3, delayMs := some 1000 }).attemptsMade ≤ 3 ∧
    (runRdapQueryWithRetry oracle
        { attempts := some 3, delayMs := some 1000 }).waits.length =
      (runRdapQueryWithRetry oracle
        { attempts := some 3, delayMs := some 1000 }).attemptsMade - 1 ∧
    (∀ i : ℕ, ∀ hi : i < (runRdapQueryWithRetry oracle
        { attempts := some 3, delayMs := some 1000 }).waits.length,
      (∀ r, oracle (i + 1) = .ok r → r.status = 429 ∧
        (runRdapQueryWithRetry oracle
          { attempts := some 3, delayMs := some 1000 }).waits.get ⟨i, hi⟩ =
          rdapRetryWait 1000 (i + 1) r) ∧
      (oracle (i + 1) = .thrown →
        (runRdapQueryWithRetry oracle
          { attempts := some 3, delayMs := some 1000 }).waits.get ⟨i, hi⟩ =
          1000 * ((i + 1 : ℕ) : ℚ))) ∧
    (∀ r, oracle (runRdapQueryWithRetry oracle
        { attempts := some 3, delayMs := some 1000 }).attemptsMade = .ok r →
      (runRdapQueryWithRetry oracle
        { attempts := some 3, delayMs := some 1000 }).outcome = .ok r) ∧
    (oracle (runRdapQueryWithRetry oracle
        { attempts := some 3, delayMs := some 1000 }).attemptsMade = .thrown →
      (runRdapQueryWithRetry oracle
        { attempts := some 3, delayMs := some 1000 }).outcome = .thrown) := by
  have hrun : runRdapQueryWithRetry oracle
      { attempts := some 3, delayMs := some 1000 } =
      rdapRetryGo oracle 3 1000 3 1 none [] := rfl
  obtain ⟨h1, h2, nw, hw, hlen, hidx, hok, hthrown⟩ :=
    rdapRetryGo_spec oracle 3 1000 3 1 none [] (by omega) (by omega) (by omega)
  rw [List.reverse_nil, List.nil_append] at hw
  subst hw
  rw [hrun]
  refine ⟨h1, h2, hlen, ?_, hok, hthrown⟩
  intro i hi
  have hcase := hidx i hi
  have harith : 1 + i = i + 1 := by omega
  rw [harith] at hcase
  exact hcase

/-- C3 (witness): the amended envelope applied to a concrete oracle that
yields a 429 with `Retry-After: 2` on the first attempt and a 404 on the
second: two attempts are made, the single backoff wait is 2000 ms and the
404 is returned. -/
theorem c3_retry_envelope_witness :
    (runRdapQueryWithRetry
      (fun attempt =>
        if attempt = 1 then
          .ok { status := 429, available := none
                detailKey := "rdap.detail.status-429-wait"
                retryAfter := some (.num 2) }
        else
          .ok { status := 404, available := some true
                detailKey := "rdap.detail.status-404" })
      { attempts := some 3, delayMs := some 1000 }).attemptsMade ≤ 3 ∧
    (runRdapQueryWithRetry
      (fun attempt =>
        if attempt = 1 then
          .ok { status := 429, available := none
                detailKey := "rdap.detail.status-429-wait"
                retryAfter := some (.num 2) }
        else
          .ok { status := 404, available := some true
                detailKey := "rdap.detail.status-404" })
      { attempts := some 3, delayMs := some 1000 }).attemptsMade = 2 ∧
    (runRdapQueryWithRetry
      (fun attempt =>
        if attempt = 1 then
          .ok { status := 429, available := none
                detailKey := "rdap.detail.status-429-wait"
                retryAfter := some (.num 2) }
        else
          .ok { status := 404, available := some true
                detailKey := "rdap.detail.status-404" })
      { attempts := some 3, delayMs := some 1000 }).outcome =
      .ok { status := 404, available := some true
            detailKey := "rdap.detail.status-404" } ∧
    (runRdapQueryWithRetry
      (fun attempt =>
        if attempt = 1 then
          .ok { status := 429, available := none
                detailKey := "rdap.detail.status-429-wait"
                retryAfter := some (.num 2) }
        else
          .ok { status := 404, available := some true
                detailKey := "rdap.detail.status-404" })
      { attempts := some 3, delayMs := some 1000 }).waits = [2000] := by
  refine ⟨(c3_retry_envelope_amended _).2.1, rfl, ?_, ?_⟩
  · exact (c3_retry_envelope_amended _).2.2.2.2.1 _ (by decide)
  · have hw : (runRdapQueryWithRetry
        (fun attempt =>
          if attempt = 1 then
            .ok { status := 429, available := none
                  detailKey := "rdap.detail.status-429-wait"
                  retryAfter := some (.num 2) }
          else
            .ok { status := 404, available := some true
                  detailKey := "rdap.detail.status-404" })
        { attempts := some 3, delayMs := some 1000 }).waits =
        [rdapRetryWait 1000 1
          { status := 429, available := none
            detailKey := "rdap.detail.status-429-wait"
            retryAfter := some (.num 2) }] := rfl
    rw [hw]
    have hv : rdapRetryWait 1000 1
        { status := 429, available := none
          detailKey := "rdap.detail.status-429-wait"
          retryAfter := some (.num 2) } = 2000 := by
      norm_num [rdapRetryWait, JsNum.toQ, JsNum.isFinite, JsNum.gtZero]
    rw [hv]

/-! ## C5 — DNS pre-check decisiveness -/

/-- `getD` through an `Option.or` whose right side is present. -/
theorem option_or_some_getD {α : Type} (x : Option α) (a b : α) :
    (x.or (some a)).getD b = x.getD a := by
  cases x <;> rfl

/-- A decisive provider classification is never the `error` status. -/
theorem providerDecision_ne_error (p : DohProviderBehavior) (st : DnsStatus)
    (pid : String) (h : providerDecision p = some (st, pid)) :
    st = .hasNs ∨ st = .noNs ∨ st = .nxdomain := by
  cases hns : p.nsOutcome with
  | thrown => simp [providerDecision, hns] at h
  | ok ns =>
    simp only [providerDecision, hns] at h
    by_cases h3 : ns.status = 3
    · rw [if_pos h3] at h
      cases h
      right; right; rfl
    · rw [if_neg h3] at h
      by_cases h0ns : ns.status = 0 ∧ hasRecordOfType ns 2
      · rw [if_pos h0ns] at h
        cases h
        left; rfl
      · rw [if_neg h0ns] at h
        by_cases h0 : ns.status = 0
        · rw [if_pos h0] at h
          cases hsoa : p.soaOutcome with
          | thrown => rw [hsoa] at h; simp at h
          | ok soa =>
            rw [hsoa] at h
            simp only at h
            by_cases hs3 : soa.status = 3
            · rw [if_pos hs3] at h
              cases h
              right; right; rfl
            · rw [if_neg hs3] at h
              by_cases hrec : hasRecordOfType soa 6
              · rw [if_pos hrec] at h
                cases h
                left; rfl
              · rw [if_neg hrec] at h
                cases h
                right; left; rfl
        · rw [if_neg h0] at h
          cases h

/-- The provider loop refines the spec-side description: it returns the
first decisive provider's classification, and otherwise an `error` carrying
the last non-decisive provider's failure detail (falling back to the
threaded accumulator, then to the unknown-error key). -/
theorem runDohQueryGo_spec (ps : List DohProviderBehavior) :
    ∀ last : Option String,
      (∀ d, ps.findSome? providerDecision = some d →
        runDohQueryGo ps last =
          { status := d.1, provider := some d.2, detail := none }) ∧
      (ps.findSome? providerDecision = none →
        runDohQueryGo ps last =
          { status := .error, provider := none
            detail := some ((ps.reverse.findSome? providerFailDetail).getD
              (last.getD "dns.detail.unknown-error")) }) := by
  induction ps with
  | nil =>
    intro last
    constructor
    · intro d hd
      cases hd
    · intro _
      rfl
  | cons p rest ih =>
    intro last
    cases hns : p.nsOutcome with
    | thrown =>
      have hdec : providerDecision p = none := by
        simp [providerDecision, hns]
      have hfail : providerFailDetail p = some "dns.detail.network-error" := by
        simp [providerFailDetail, hns]
      have hgo : runDohQueryGo (p :: rest) last =
          runDohQueryGo rest (some "dns.detail.network-error") := by
        simp only [runDohQueryGo, hns]
      rw [hgo]
      constructor
      · intro d hd
        rw [List.findSome?_cons, hdec] at hd
        exact (ih _).1 d hd
      · intro hnone
        rw [List.findSome?_cons, hdec] at hnone
        rw [(ih _).2 hnone]
        simp only [List.reverse_cons, List.findSome?_append,
          List.findSome?_cons, hfail, option_or_some_getD, Option.getD_some]
    | ok ns =>
      by_cases h3 : ns.status = 3
      · have hinterp : interpretNsResponse ns = .nxdomain := by
          simp only [interpretNsResponse]
          rw [if_pos h3]
        have hdec : providerDecision p = some (.nxdomain, p.id) := by
          simp only [providerDecision, hns]
          rw [if_pos h3]
        have hgo : runDohQueryGo (p :: rest) last =
            { status := .nxdomain, provider := some p.id, detail := none } := by
          simp only [runDohQueryGo, hns, hinterp]
        rw [hgo]
        constructor
        · intro d hd
          rw [List.findSome?_cons, hdec] at hd
          cases hd
          rfl
        · intro hnone
          rw [List.findSome?_cons, hdec] at hnone
          cases hnone
      · by_cases h0 : ns.status = 0
        · by_cases hrec : hasRecordOfType ns 2
          · have hinterp : interpretNsResponse ns = .hasNs := by
              simp only [interpretNsResponse]
              rw [if_neg h3, if_pos h0, if_pos hrec]
            have hdec : providerDecision p = some (.hasNs, p.id) := by
              simp only [providerDecision, hns]
              rw [if_neg h3, if_pos ⟨h0, hrec⟩]
            have hgo : runDohQueryGo (p :: rest) last =
                { status := .hasNs, provider := some p.id
                  detail := none } := by
              simp only [runDohQueryGo, hns, hinterp]
            rw [hgo]
            constructor
            · intro d hd
              rw [List.findSome?_cons, hdec] at hd
              cases hd
              rfl
            · intro hnone
              rw [List.findSome?_cons, hdec] at hnone
              cases hnone
          · have hinterp : interpretNsResponse ns = .noNs := by
              simp only [interpretNsResponse]
              rw [if_neg h3, if_pos h0, if_neg hrec]
            have hno : ¬(ns.status = 0 ∧ hasRecordOfType ns 2) := by
              rintro ⟨_, hr⟩
              exact hrec hr
            cases hsoa : p.soaOutcome with
            | thrown =>
              have hdec : providerDecision p = none := by
                simp only [providerDecision, hns]
                rw [if_neg h3, if_neg hno, if_pos h0, hsoa]
              have hfail : providerFailDetail p =
                  some "dns.detail.network-error" := by
                simp only [providerFailDetail, hns]
                rw [if_neg h3, if_pos h0, hsoa]
                simp only [if_neg hrec]
              have hgo : runDohQueryGo (p :: rest) last =
                  runDohQueryGo rest (some "dns.detail.network-error") := by
                simp only [runDohQueryGo, hns, hinterp, hsoa]
              rw [hgo]
              constructor
              · intro d hd
                rw [List.findSome?_cons, hdec] at hd
                exact (ih _).1 d hd
              · intro hnone
                rw [List.findSome?_cons, hdec] at hnone
                rw [(ih _).2 hnone]
                simp only [List.reverse_cons, List.findSome?_append,
                  List.findSome?_cons, hfail, option_or_some_getD,
                  Option.getD_some]
            | ok soa =>
              have hdec : providerDecision p = some
                  (if soa.status = 3 then (DnsStatus.nxdomain, p.id)
                   else if hasRecordOfType soa 6 then (DnsStatus.hasNs, p.id)
                   else (DnsStatus.noNs, p.id)) := by
                simp only [providerDecision, hns]
                rw [if_neg h3, if_neg hno, if_pos h0, hsoa]
                simp only []
                split
                · rfl
                · split <;> rfl
              have hgo : runDohQueryGo (p :: rest) last =
                  { status :=
                      if soa.status = 3 then DnsStatus.nxdomain
                      else if hasRecordOfType soa 6 then DnsStatus.hasNs
                      else DnsStatus.noNs
                    provider := some p.id, detail := none } := by
                simp only [runDohQueryGo, hns, hinterp, hsoa]
                split
                · rfl
                · split <;> rfl
              rw [hgo]
              constructor
              · intro d hd
                rw [List.findSome?_cons, hdec] at hd
                cases hd
                split
                · rfl
                · split <;> rfl
              · intro hnone
                rw [List.findSome?_cons, hdec] at hnone
                cases hnone
        · have hinterp : interpretNsResponse ns = .error := by
            simp only [interpretNsResponse]
            rw [if_neg h3, if_neg h0]
          have hno : ¬(ns.status = 0 ∧ hasRecordOfType ns 2) := by
            rintro ⟨hz, _⟩
            exact h0 hz
          have hdec : providerDecision p = none := by
            simp only [providerDecision, hns]
            rw [if_neg h3, if_neg hno, if_neg h0]
          have hfail : providerFailDetail p =
              some "dns.detail.unexpected-status" := by
            simp only [providerFailDetail, hns]
            rw [if_neg h3, if_neg h0]
          have hgo : runDohQueryGo (p :: rest) last =
              runDohQueryGo rest (some "dns.detail.unexpected-status") := by
            simp only [runDohQueryGo, hns, hinterp]
          rw [hgo]
          constructor
          · intro d hd
            rw [List.findSome?_cons, hdec] at hd
            exact (ih _).1 d hd
          · intro hnone
            rw [List.findSome?_cons, hdec] at hnone
            rw [(ih _).2 hnone]
            simp only [List.reverse_cons, List.findSome?_append,
              List.findSome?_cons, hfail, option_or_some_getD,
              Option.getD_some]

/-- C5: over any ordered provider sequence, the DNS pre-check returns the
first decisive provider's classification (`nxdomain` on NS RCODE 3,
`has-ns` on RCODE 0 with an NS record, and via the same provider's SOA
query `nxdomain`/`has-ns`/`no-ns` on RCODE 0 without one; other RCODEs and
network failures are non-decisive), and returns `error` — carrying the last
failure detail — exactly when every provider is non-decisive. -/
theorem c5_dns_first_decisive (providers : List DohProviderBehavior) :
    (∀ st pid, providers.findSome? providerDecision = some (st, pid) →
      runDohQuery providers =
        { status := st, provider := some pid, detail := none }) ∧
    (providers.findSome? providerDecision = none →
      runDohQuery providers =
        { status := .error, provider := none
          detail := some ((providers.reverse.findSome?
            providerFailDetail).getD "dns.detail.unknown-error") }) ∧
    ((runDohQuery providers).status = .error ↔
      ∀ p ∈ providers, providerDecision p = none) := by
  have hspec := runDohQueryGo_spec providers none
  have hrq : runDohQuery providers = runDohQueryGo providers none := rfl
  refine ⟨fun st pid h => hspec.1 (st, pid) h, fun h => hspec.2 h, ?_⟩
  constructor
  · intro herr
    rw [hrq] at herr
    rw [← List.findSome?_eq_none_iff]
    cases hfs : providers.findSome? providerDecision with
    | none => rfl
    | some d =>
      have hd := hspec.1 d hfs
      rw [hd] at herr
      simp only at herr
      obtain ⟨p, _, hpd⟩ := List.exists_of_findSome?_eq_some hfs
      rcases providerDecision_ne_error p d.1 d.2 (by rw [hpd]) with h | h | h <;>
        rw [h] at herr <;> cases herr
  · intro hall
    rw [hrq]
    have hfs : providers.findSome? providerDecision = none :=
      List.findSome?_eq_none_iff.mpr hall
    rw [hspec.2 hfs]

/-- C5 (witness): a first provider failing with a network error and a
second provider answering NS RCODE 3 classify the domain `nxdomain` via the
second provider. -/
theorem c5_dns_first_decisive_witness :
    runDohQuery
      [{ id := "google", nsOutcome := .thrown, soaOutcome := .thrown },
       { id := "cloudflare"
         nsOutcome := .ok { status := 3, answer := [], authority := [6] }
         soaOutcome := .thrown }] =
      { status := .nxdomain, provider := some "cloudflare"
        detail := none } := by
  exact (c5_dns_first_decisive _).1 .nxdomain "cloudflare" (by decide)

/-! ## C4 / C10 — bounded concurrency queue -/

/-- Unfolding of an `enqueue` transition. -/
theorem queueStep_enqueue (c : ℕ) (s : QueueState) (id : ℕ) :
    queueStep c s (.enqueue id) =
      if s.active < c then startTask { s with seen := id :: s.seen } id
      else { s with seen := id :: s.seen, queued := s.queued ++ [id] } := rfl

/-- Unfolding of a `finish` transition. -/
theorem queueStep_finish (c : ℕ) (s : QueueState) (id : ℕ) :
    queueStep c s (.finish id) =
      (if c ≤ s.active - 1 then
        { s with active := s.active - 1, running := s.running.erase id }
      else
        match s.queued with
        | [] => { s with active := s.active - 1, running := s.running.erase id }
        | next :: rest =>
          startTask
            { s with
                active := s.active - 1
                running := s.running.erase id
                queued := rest } next) := rfl

/-- Unfolding of a `clear` transition. -/
theorem queueStep_clear (c : ℕ) (s : QueueState) :
    queueStep c s .clear = { s with queued := [] } := rfl

/-- One valid step preserves the counting invariant: the active counter
tracks the number of running tasks and never exceeds the limit. -/
theorem queueInv_step (c : ℕ) (s : QueueState) (e : QueueEvent)
    (hlen : s.active = s.running.length) (hb : s.active ≤ c)
    (hve : validEvent s e = true) :
    (queueStep c s e).active = (queueStep c s e).running.length ∧
    (queueStep c s e).active ≤ c := by
  cases e with
  | enqueue id =>
    rw [queueStep_enqueue]
    split
    · next hlt =>
      constructor
      · simp only [startTask, List.length_cons]
        omega
      · simp only [startTask]
        omega
    · next hge => exact ⟨hlen, hb⟩
  | finish id =>
    have hid : id ∈ s.running := by
      simpa [validEvent, List.contains, List.elem_iff] using hve
    have herase : (s.running.erase id).length = s.running.length - 1 :=
      List.length_erase_of_mem hid
    have hpos : 0 < s.running.length := List.length_pos_of_mem hid
    rw [queueStep_finish]
    split
    · next hge =>
      constructor
      · show s.active - 1 = (s.running.erase id).length
        omega
      · show s.active - 1 ≤ c
        omega
    · next hge =>
      cases hque : s.queued with
      | nil =>
        constructor
        · show s.active - 1 = (s.running.erase id).length
          omega
        · show s.active - 1 ≤ c
          omega
      | cons next rest =>
        constructor
        · show s.active - 1 + 1 = (next :: s.running.erase id).length
          simp only [List.length_cons]
          omega
        · show s.active - 1 + 1 ≤ c
          omega
  | clear =>
    rw [queueStep_clear]
    exact ⟨hlen, hb⟩

/-- The counting invariant holds along every valid trace. -/
theorem queueInv_trace (c : ℕ) :
    ∀ t (s : QueueState), s.active = s.running.length → s.active ≤ c →
      validTrace c s t = true →
      (runTrace c s t).active = (runTrace c s t).running.length ∧
      (runTrace c s t).active ≤ c := by
  intro t
  induction t with
  | nil => intro s h1 h2 _; exact ⟨h1, h2⟩
  | cons e t ih =>
    intro s h1 h2 hv
    simp only [validTrace, Bool.and_eq_true] at hv
    have hstep := queueInv_step c s e h1 h2 hv.1
    exact ih _ hstep.1 hstep.2 hv.2

/-- C4: for every concurrency limit `N ≥ 1` and every valid event trace
(arbitrary interleavings of enqueues, task settlements and clears), the
number of tasks simultaneously started-but-not-finished never exceeds
`N`. -/
theorem c4_scheduler_bound (c : ℕ) (t : List QueueEvent) (_hc : 1 ≤ c)
    (hv : validTrace c initQueue t = true) :
    (runTrace c initQueue t).running.length ≤ c := by
  have h := queueInv_trace c t initQueue rfl (by simp [initQueue]) hv
  omega

/-- C4 (witness): with limit 2 and five submissions interleaved with a
settlement and a clear, at most 2 tasks are running at the end. -/
theorem c4_scheduler_bound_witness :
    validTrace 2 initQueue
      [.enqueue 0, .enqueue 1, .enqueue 2, .finish 1, .enqueue 3, .clear,
        .finish 0] = true ∧
    (runTrace 2 initQueue
      [.enqueue 0, .enqueue 1, .enqueue 2, .finish 1, .enqueue 3, .clear,
        .finish 0]).running.length ≤ 2 :=
  ⟨by decide, c4_scheduler_bound 2 _ (by decide) (by decide)⟩

/-- One valid step preserves queue well-formedness. -/
theorem queueWf_step (c : ℕ) (s : QueueState) (e : QueueEvent)
    (hwf : queueWf s) (hve : validEvent s e = true) :
    queueWf (queueStep c s e) := by
  obtain ⟨hqs, hqseen, hsseen, hrs, hnd⟩ := hwf
  cases e with
  | enqueue id =>
    have hfresh : id ∉ s.seen := by
      simpa [validEvent, List.contains, List.elem_iff] using hve
    rw [queueStep_enqueue]
    split
    · refine ⟨?_, ?_, ?_, ?_, hnd⟩
      · intro x hx
        simp only [startTask, List.mem_cons]
        rintro (rfl | hx2)
        · exact hfresh (hqseen x hx)
        · exact hqs x hx hx2
      · intro x hx
        simp only [startTask, List.mem_cons]
        exact Or.inr (hqseen x hx)
      · intro x hx
        simp only [startTask, List.mem_cons] at hx ⊢
        rcases hx with rfl | hx
        · exact Or.inl rfl
        · exact Or.inr (hsseen x hx)
      · intro x hx
        simp only [startTask, List.mem_cons] at hx ⊢
        rcases hx with rfl | hx
        · exact Or.inl rfl
        · exact Or.inr (hrs x hx)
    · refine ⟨?_, ?_, ?_, hrs, ?_⟩
      · intro x hx
        simp only [List.mem_append, List.mem_singleton] at hx
        rcases hx with hx | rfl
        · exact hqs x hx
        · intro hx2
          exact hfresh (hsseen x hx2)
      · intro x hx
        simp only [List.mem_append, List.mem_singleton] at hx
        simp only [List.mem_cons]
        rcases hx with hx | rfl
        · exact Or.inr (hqseen x hx)
        · exact Or.inl rfl
      · intro x hx
        simp only [List.mem_cons]
        exact Or.inr (hsseen x hx)
      · simp only [List.nodup_append, List.nodup_cons, List.nodup_nil]
        refine ⟨hnd, by simp, ?_⟩
        intro x hx
        simp only [List.mem_singleton]
        rintro rfl
        exact hfresh (hqseen x hx)
  | finish id =>
    rw [queueStep_finish]
    split
    · exact ⟨hqs, hqseen, hsseen,
        fun x hx => hrs x (List.mem_of_mem_erase hx), hnd⟩
    · cases hque : s.queued with
      | nil => exact ⟨by simp, by simp, hsseen,
          fun x hx => hrs x (List.mem_of_mem_erase hx), by simp⟩
      | cons next rest =>
        have hnext : next ∈ s.queued := by rw [hque]; exact List.mem_cons_self _ _
        have hrest : ∀ x ∈ rest, x ∈ s.queued := by
          intro x hx
          rw [hque]
          exact List.mem_cons_of_mem _ hx
        have hndrest : rest.Nodup ∧ next ∉ rest := by
          rw [hque] at hnd
          exact ⟨hnd.of_cons, (List.nodup_cons.mp hnd).1⟩
        refine ⟨?_, ?_, ?_, ?_, hndrest.1⟩
        · intro x hx
          simp only [startTask, List.mem_cons]
          rintro (rfl | hx2)
          · exact hndrest.2 hx
          · exact hqs x (hrest x hx) hx2
        · intro x hx
          exact hqseen x (hrest x hx)
        · intro x hx
          simp only [startTask, List.mem_cons] at hx
          rcases hx with rfl | hx
          · exact hqseen x hnext
          · exact hsseen x hx
        · intro x hx
          simp only [startTask, List.mem_cons] at hx ⊢
          rcases hx with rfl | hx
          · exact Or.inl rfl
          · exact Or.inr (hrs x (List.mem_of_mem_erase hx))
  | clear =>
    rw [queueStep_clear]
    exact ⟨by simp, by simp, hsseen, hrs, by simp⟩

/-- Queue well-formedness holds along every valid trace. -/
theorem queueWf_trace (c : ℕ) :
    ∀ t (s : QueueState), queueWf s → validTrace c s t = true →
      queueWf (runTrace c s t) := by
  intro t
  induction t with
  | nil => intro s h _; exact h
  | cons e t ih =>
    intro s h hv
    simp only [validTrace, Bool.and_eq_true] at hv
    exact ih _ (queueWf_step c s e h hv.1) hv.2

/-- The initial queue state is well-formed. -/
theorem queueWf_init : queueWf initQueue := by
  refine ⟨?_, ?_, ?_, ?_, ?_⟩ <;> simp [initQueue]

/-- A task that is no longer queued, never started, and already known to
the queue can never start in any valid continuation — and its settlement
event can never validly occur. -/
theorem queue_dropped_never (c : ℕ) (id : ℕ) :
    ∀ t (s : QueueState), queueWf s →
      id ∉ s.queued → id ∉ s.started → id ∈ s.seen →
      validTrace c s t = true →
      id ∉ (runTrace c s t).started ∧ id ∉ (runTrace c s t).queued ∧
      QueueEvent.finish id ∉ t := by
  intro t
  induction t with
  | nil =>
    intro s _ hq hs _ _
    exact ⟨hs, hq, by simp⟩
  | cons e t ih =>
    intro s hwf hq hs hseen hv
    simp only [validTrace, Bool.and_eq_true] at hv
    have hwf2 := queueWf_step c s e hwf hv.1
    have hstep : id ∉ (queueStep c s e).queued ∧
        id ∉ (queueStep c s e).started ∧ id ∈ (queueStep c s e).seen ∧
        e ≠ QueueEvent.finish id := by
      cases e with
      | enqueue id2 =>
        have hfresh : id2 ∉ s.seen := by
          simpa [validEvent, List.contains, List.elem_iff] using hv.1
        have hne : id2 ≠ id := by
          rintro rfl
          exact hfresh hseen
        rw [queueStep_enqueue]
        split
        · refine ⟨hq, ?_, ?_, by simp⟩
          · simp only [startTask, List.mem_cons]
            rintro (rfl | hx)
            · exact hne rfl
            · exact hs hx
          · simp only [startTask, List.mem_cons]
            exact Or.inr hseen
        · refine ⟨?_, hs, ?_, by simp⟩
          · simp only [List.mem_append, List.mem_singleton]
            rintro (hx | rfl)
            · exact hq hx
            · exact hne rfl
          · simp only [List.mem_cons]
            exact Or.inr hseen
      | finish id2 =>
        have hid2 : id2 ∈ s.running := by
          simpa [validEvent, List.contains, List.elem_iff] using hv.1
        have hne : id2 ≠ id := by
          rintro rfl
          exact hs (hwf.2.2.2.1 id2 hid2)
        rw [queueStep_finish]
        split
        · exact ⟨hq, hs, hseen, by simp [hne]⟩
        · cases hque : s.queued with
          | nil => exact ⟨by simp, hs, hseen, by simp [hne]⟩
          | cons next rest =>
            have hnexth : next ∈ s.queued := by
              rw [hque]; exact List.mem_cons_self _ _
            have hnextne : next ≠ id := by
              rintro rfl
              exact hq hnexth
            refine ⟨?_, ?_, hseen, by simp [hne]⟩
            · intro hx
              apply hq
              rw [hque]
              exact List.mem_cons_of_mem _ hx
            · simp only [startTask, List.mem_cons]
              rintro (rfl | hx)
              · exact hnextne rfl
              · exact hs hx
      | clear =>
        rw [queueStep_clear]
        exact ⟨by simp, hs, hseen, by simp⟩
    have hrest := ih (queueStep c s e) hwf2 hstep.1 hstep.2.1 hstep.2.2.1 hv.2
    refine ⟨hrest.1, hrest.2.1, ?_⟩
    simp only [List.mem_cons, not_or]
    exact ⟨fun h => hstep.2.2.2 h.symm, hrest.2.2⟩

/-- Running a concatenated trace runs the pieces in order. -/
theorem runTrace_append (c : ℕ) :
    ∀ (t1 t2 : List QueueEvent) (s : QueueState),
      runTrace c s (t1 ++ t2) = runTrace c (runTrace c s t1) t2 := by
  intro t1
  induction t1 with
  | nil => intro t2 s; rfl
  | cons e t1 ih =>
    intro t2 s
    simp only [List.cons_append, runTrace]
    exact ih t2 (queueStep c s e)

/-- Validity of a concatenated trace splits at the junction state. -/
theorem validTrace_append (c : ℕ) :
    ∀ (t1 t2 : List QueueEvent) (s : QueueState),
      validTrace c s (t1 ++ t2) = true ↔
        (validTrace c s t1 = true ∧
          validTrace c (runTrace c s t1) t2 = true) := by
  intro t1
  induction t1 with
  | nil =>
    intro t2 s
    simp [validTrace, runTrace]
  | cons e t1 ih =>
    intro t2 s
    simp only [List.cons_append, validTrace, runTrace, Bool.and_eq_true,
      List.append_eq]
    rw [ih]
    tauto

/-- C10: when `clear()` is executed, every task still waiting in the queue
is dropped: it is never started at any later point of any valid
continuation, and its settlement event (the only way its promise could
resolve or reject) can never validly occur afterwards — while the tasks
already running are untouched by the clear and can still settle. -/
theorem c10_clear_drops_queued (c : ℕ) (t1 t2 : List QueueEvent) (id : ℕ)
    (hv : validTrace c initQueue (t1 ++ QueueEvent.clear :: t2) = true)
    (hq : id ∈ (runTrace c initQueue t1).queued) :
    (∀ p q : List QueueEvent, t2 = p ++ q →
      id ∉ (runTrace c initQueue (t1 ++ QueueEvent.clear :: p)).started) ∧
    QueueEvent.finish id ∉ t2 ∧
    (queueStep c (runTrace c initQueue t1) QueueEvent.clear).running =
      (runTrace c initQueue t1).running ∧
    (queueStep c (runTrace c initQueue t1) QueueEvent.clear).active =
      (runTrace c initQueue t1).active ∧
    ∀ j ∈ (runTrace c initQueue t1).running,
      validEvent (queueStep c (runTrace c initQueue t1) QueueEvent.clear)
        (QueueEvent.finish j) = true := by
  have hsplit := (validTrace_append c t1 (QueueEvent.clear :: t2) initQueue).mp hv
  have hv1 := hsplit.1
  have hv2 := hsplit.2
  simp only [validTrace, Bool.and_eq_true] at hv2
  have hvt2 := hv2.2
  have hwf1 : queueWf (runTrace c initQueue t1) :=
    queueWf_trace c t1 initQueue queueWf_init hv1
  have hwfC : queueWf (queueStep c (runTrace c initQueue t1)
      QueueEvent.clear) :=
    queueWf_step c _ _ hwf1 rfl
  have hidq : id ∉ (queueStep c (runTrace c initQueue t1)
      QueueEvent.clear).queued := by
    rw [queueStep_clear]
    simp
  have hids : id ∉ (queueStep c (runTrace c initQueue t1)
      QueueEvent.clear).started := hwf1.1 id hq
  have hidseen : id ∈ (queueStep c (runTrace c initQueue t1)
      QueueEvent.clear).seen := hwf1.2.1 id hq
  refine ⟨?_, ?_, rfl, rfl, ?_⟩
  · intro p q hpq
    subst hpq
    have hvp : validTrace c (queueStep c (runTrace c initQueue t1)
        QueueEvent.clear) p = true :=
      ((validTrace_append c p q _).mp hvt2).1
    have hnever := queue_dropped_never c id p _ hwfC hidq hids hidseen hvp
    have hrw : runTrace c initQueue (t1 ++ QueueEvent.clear :: p) =
        runTrace c (queueStep c (runTrace c initQueue t1)
          QueueEvent.clear) p := by
      rw [runTrace_append]
      rfl
    rw [hrw]
    exact hnever.1
  · exact (queue_dropped_never c id t2 _ hwfC hidq hids hidseen hvt2).2.2
  · intro j hj
    simp only [validEvent, queueStep_clear]
    simpa [List.contains, List.elem_iff] using hj

/-- C10 (witness): with limit 1, task 0 runs and task 1 waits; after a
clear, task 1 is never started and its settlement never occurs, while the
running task 0 still settles. -/
theorem c10_clear_drops_queued_witness :
    (∀ p q : List QueueEvent, [QueueEvent.finish 0] = p ++ q →
      1 ∉ (runTrace 1 initQueue
        ([QueueEvent.enqueue 0, QueueEvent.enqueue 1] ++
          QueueEvent.clear :: p)).started) ∧
    QueueEvent.finish 1 ∉ [QueueEvent.finish 0] ∧
    (queueStep 1 (runTrace 1 initQueue
        [QueueEvent.enqueue 0, QueueEvent.enqueue 1])
      QueueEvent.clear).running =
      (runTrace 1 initQueue
        [QueueEvent.enqueue 0, QueueEvent.enqueue 1]).running ∧
    (queueStep 1 (runTrace 1 initQueue
        [QueueEvent.enqueue 0, QueueEvent.enqueue 1])
      QueueEvent.clear).active =
      (runTrace 1 initQueue
        [QueueEvent.enqueue 0, QueueEvent.enqueue 1]).active ∧
    ∀ j ∈ (runTrace 1 initQueue
        [QueueEvent.enqueue 0, QueueEvent.enqueue 1]).running,
      validEvent (queueStep 1 (runTrace 1 initQueue
          [QueueEvent.enqueue 0, QueueEvent.enqueue 1]) QueueEvent.clear)
        (QueueEvent.finish j) = true :=
  c10_clear_drops_queued 1 [QueueEvent.enqueue 0, QueueEvent.enqueue 1]
    [QueueEvent.finish 0] 1 (by decide) (by decide)

/-! ## C1 — stale-run discard in the reducer -/

/-- C1 (counterexample): run B is current (`dns/start` with runId 2,
clearing the rows), yet an `rdap/update` completion assembled from
superseded run A's snapshot still mutates the row snapshot — the
`rdap/update` action carries no runId and the reducer applies it
unconditionally, so the claim that every stale RDAP-stage completion
leaves the state unchanged is false. -/
theorem c1_stale_rdap_counterexample :
    appReducer 0 (appReducer 0 defaultState (.dnsStart 2 1))
        (.rdapUpdate
          [{ id := "a.com", domain := "a.com", ascii := "a.com"
             tld := "com", dns := .nxdomain, rdap := some 404
             verdict := .available, detail := none }] 1) ≠
      appReducer 0 defaultState (.dnsStart 2 1) ∧
    (appReducer 0 (appReducer 0 defaultState (.dnsStart 2 1))
        (.rdapUpdate
          [{ id := "a.com", domain := "a.com", ascii := "a.com"
             tld := "com", dns := .nxdomain, rdap := some 404
             verdict := .available, detail := none }] 1)).dns.rows =
      [{ id := "a.com", domain := "a.com", ascii := "a.com"
         tld := "com", dns := .nxdomain, rdap := some 404
         verdict := .available, detail := none }] ∧
    (appReducer 0 defaultState (.dnsStart 2 1)).dns.rows = [] := by
  refine ⟨?_, rfl, rfl⟩
  intro h
  have hrows := congrArg (fun st => st.dns.rows) h
  exact absurd hrows (by decide)

/-- C1 (amended): the DNS-stage completions `dns/progress`, `dns/success`
and `dns/error` are guarded by the current runId — with a different runId
the reducer returns the state unchanged — while `rdap/update` carries no
runId and is applied unconditionally (it overwrites the row snapshot and
the checked counter), so RDAP-stage completions from a superseded run are
not discarded at the reducer. -/
theorem c1_stale_run_discard_amended :
    (∀ (now : ℤ) (s : AppState) (rid completed : ℤ), rid ≠ s.dns.runId →
      appReducer now s (.dnsProgress rid completed) = s) ∧
    (∀ (now : ℤ) (s : AppState) (rid : ℤ) rows, rid ≠ s.dns.runId →
      appReducer now s (.dnsSuccess rid rows) = s) ∧
    (∀ (now : ℤ) (s : AppState) (rid : ℤ) key, rid ≠ s.dns.runId →
      appReducer now s (.dnsError rid key) = s) ∧
    (∀ (now : ℤ) (s : AppState) rows (checked : ℤ),
      (appReducer now s (.rdapUpdate rows checked)).dns.rows = rows ∧
      (appReducer now s (.rdapUpdate rows checked)).rdap.checkedCount =
        checked) := by
  refine ⟨?_, ?_, ?_, ?_⟩
  · intro now s rid completed h
    simp only [appReducer]
    rw [if_pos (Ne.symm h)]
  · intro now s rid rows h
    simp only [appReducer]
    rw [if_pos (Ne.symm h)]
  · intro now s rid key h
    simp only [appReducer]
    rw [if_pos (Ne.symm h)]
  · intro now s rows checked
    exact ⟨rfl, rfl⟩

/-- C1 (witness): with current runId 2, a `dns/progress` carrying runId 1
is discarded. -/
theorem c1_stale_run_discard_witness :
    (1 : ℤ) ≠ (appReducer 0 defaultState (.dnsStart 2 1)).dns.runId ∧
    appReducer 0 (appReducer 0 defaultState (.dnsStart 2 1))
        (.dnsProgress 1 5) =
      appReducer 0 defaultState (.dnsStart 2 1) :=
  ⟨by decide,
    c1_stale_run_discard_amended.1 0 _ 1 5 (by decide)⟩

/-! ## C7 / C8 — normalizer lemmas -/

/-- The code point of a character built by `Char.ofNatAux`. -/
theorem toNat_ofNatAux (n : ℕ) (h : n.isValidChar) :
    (Char.ofNatAux n h).toNat = n := rfl

/-- Code point of a lowercased character. -/
theorem lowerChar_toNat (c : Char) :
    (lowerChar c).toNat =
      if 65 ≤ c.toNat ∧ c.toNat ≤ 90 then c.toNat + 32 else c.toNat := by
  unfold lowerChar
  split
  · rfl
  · rfl

/-- A character outside `A`–`Z` is fixed by lowercasing. -/
theorem lowerChar_eq_of_not_upper {c : Char}
    (h : ¬(65 ≤ c.toNat ∧ c.toNat ≤ 90)) : lowerChar c = c := dif_neg h

/-- Lowercasing a character is idempotent. -/
theorem lowerChar_idem (c : Char) : lowerChar (lowerChar c) = lowerChar c := by
  by_cases h : 65 ≤ c.toNat ∧ c.toNat ≤ 90
  · apply lowerChar_eq_of_not_upper
    rw [lowerChar_toNat, if_pos h]
    omega
  · rw [lowerChar_eq_of_not_upper h]
    exact lowerChar_eq_of_not_upper h

/-- Lowercasing a string is idempotent. -/
theorem lowerStr_idem (l : List Char) : lowerStr (lowerStr l) = lowerStr l := by
  unfold lowerStr
  rw [List.map_map]
  exact List.map_congr_left fun c _ => lowerChar_idem c

/-- `splitDots` produces one more piece than there are dots. -/
theorem splitDots_length (l : List Char) :
    (splitDots l).length = l.count '.' + 1 := by
  induction l with
  | nil => rfl
  | cons c rest ih =>
    by_cases hc : c = '.'
    · subst hc
      have hsp : splitDots ('.' :: rest) = [] :: splitDots rest := by
        simp [splitDots]
      rw [hsp, List.length_cons, ih, List.count_cons_self]
    · have hcount : List.count '.' (c :: rest) = List.count '.' rest :=
        List.count_cons_of_ne (Ne.symm hc) rest
      simp only [splitDots, if_neg hc, hcount]
      cases hsp : splitDots rest with
      | nil => rw [hsp] at ih; simp at ih
      | cons l0 ls =>
        rw [hsp] at ih
        simp only [List.length_cons] at ih ⊢
        omega

/-- `splitDots` never returns the empty list of pieces. -/
theorem splitDots_ne_nil (l : List Char) : splitDots l ≠ [] := by
  intro h
  have := splitDots_length l
  rw [h] at this
  simp at this

/-- Unfolding: a leading dot opens a fresh empty label. -/
theorem splitDots_cons_dot (rest : List Char) :
    splitDots ('.' :: rest) = [] :: splitDots rest := by
  simp [splitDots]

/-- Unfolding: a leading non-dot character joins the first label. -/
theorem splitDots_cons_ne {c : Char} (rest : List Char) (hc : ¬c = '.') :
    splitDots (c :: rest) =
      match splitDots rest with
      | [] => [[c]]
      | l :: ls => (c :: l) :: ls := by
  simp only [splitDots, if_neg hc]

/-- A string ending in a dot splits with an empty final label. -/
theorem splitDots_last_eq_nil :
    ∀ l : List Char, l.getLast? = some '.' →
      (splitDots l).getLast? = some [] := by
  intro l
  induction l with
  | nil => intro h; cases h
  | cons c rest ih =>
    intro h
    cases rest with
    | nil =>
      simp only [List.getLast?_singleton, Option.some.injEq] at h
      subst h
      rfl
    | cons y t =>
      rw [List.getLast?_cons_cons] at h
      have hlast := ih h
      have hmem : '.' ∈ y :: t := List.mem_of_getLast?_eq_some h
      have hcount : 0 < List.count '.' (y :: t) := List.count_pos_iff.mpr hmem
      have hlen : 2 ≤ (splitDots (y :: t)).length := by
        rw [splitDots_length]
        omega
      by_cases hc : c = '.'
      · subst hc
        rw [splitDots_cons_dot]
        cases hsp : splitDots (y :: t) with
        | nil => exact absurd hsp (splitDots_ne_nil _)
        | cons l0 ls =>
          rw [hsp] at hlast
          rw [List.getLast?_cons_cons]
          exact hlast
      · rw [splitDots_cons_ne _ hc]
        cases hsp : splitDots (y :: t) with
        | nil => exact absurd hsp (splitDots_ne_nil _)
        | cons l0 ls =>
          rw [hsp] at hlast hlen
          cases ls with
          | nil => simp at hlen
          | cons l1 ls2 =>
            rw [List.getLast?_cons_cons] at hlast
            simp only []
            rw [List.getLast?_cons_cons]
            exact hlast

/-- Every character of a string is a dot or lies in some split label. -/
theorem mem_splitDots :
    ∀ (l : List Char) (c : Char), c ∈ l →
      c = '.' ∨ ∃ lab ∈ splitDots l, c ∈ lab := by
  intro l
  induction l with
  | nil => intro c hc; cases hc
  | cons a rest ih =>
    intro c hc
    rcases List.mem_cons.mp hc with rfl | hc2
    · by_cases ha : c = '.'
      · exact Or.inl ha
      · right
        rw [splitDots_cons_ne _ ha]
        cases hsp : splitDots rest with
        | nil => exact absurd hsp (splitDots_ne_nil _)
        | cons l0 ls =>
          exact ⟨c :: l0, List.mem_cons_self _ _, List.mem_cons_self _ _⟩
    · rcases ih c hc2 with h | ⟨lab, hlab, hclab⟩
      · exact Or.inl h
      · right
        by_cases ha : a = '.'
        · subst ha
          rw [splitDots_cons_dot]
          exact ⟨lab, List.mem_cons_of_mem _ hlab, hclab⟩
        · rw [splitDots_cons_ne _ ha]
          cases hsp : splitDots rest with
          | nil => exact absurd hsp (splitDots_ne_nil _)
          | cons l0 ls =>
            rw [hsp] at hlab
            rcases List.mem_cons.mp hlab with rfl | hlab2
            · exact ⟨a :: lab, List.mem_cons_self _ _,
                List.mem_cons_of_mem _ hclab⟩
            · exact ⟨lab, List.mem_cons_of_mem _ hlab2, hclab⟩

/-- A member of a list is in its front part or is its last element. -/
theorem mem_dropLast_or_getLast? :
    ∀ (l : List Char) (c : Char), c ∈ l →
      c ∈ l.dropLast ∨ l.getLast? = some c := by
  intro l
  induction l with
  | nil => intro c hc; cases hc
  | cons x rest ih =>
    intro c hc
    cases rest with
    | nil =>
      rcases List.mem_cons.mp hc with rfl | hc2
      · exact Or.inr rfl
      · cases hc2
    | cons y t =>
      rcases List.mem_cons.mp hc with rfl | hc2
      · left
        have hdl : (c :: y :: t).dropLast = c :: (y :: t).dropLast := rfl
        rw [hdl]
        exact List.mem_cons_self _ _
      · rcases ih c hc2 with hin | hlastc
        · left
          have hdl : (x :: y :: t).dropLast = x :: (y :: t).dropLast := rfl
          rw [hdl]
          exact List.mem_cons_of_mem _ hin
        · right
          rw [List.getLast?_cons_cons]
          exact hlastc

/-- Every character of a valid label is alphanumeric or a hyphen. -/
theorem labelOk_chars {lab : List Char} (h : labelOk lab = true) :
    ∀ c ∈ lab, isAlnumCI c = true ∨ c = '-' := by
  cases lab with
  | nil => cases h
  | cons c0 rest =>
    simp only [labelOk, Bool.and_eq_true, Bool.or_eq_true] at h
    obtain ⟨h0, hrest⟩ := h
    intro c hc
    rcases List.mem_cons.mp hc with rfl | hc2
    · exact Or.inl h0
    · rcases hrest with hempty | hlong
      · rw [List.isEmpty_iff.mp hempty] at hc2
        cases hc2
      · obtain ⟨⟨_, hlastAl⟩, hmid⟩ := hlong
        rcases mem_dropLast_or_getLast? rest c hc2 with hin | hlastc
        · have := List.all_eq_true.mp hmid c hin
          simpa using this
        · left
          have hgd : rest.getLastD ' ' = c := by
            rw [List.getLastD_eq_getLast?, hlastc]
            rfl
          rw [← hgd]
          exact hlastAl

/-- Unpacking of a passed domain validation. -/
theorem validate_parts {l : List Char} (h : validateAsciiDomain l = none) :
    (1 ≤ l.length ∧ l.length ≤ 253) ∧ '.' ∈ l ∧
    ¬(l.head? = some '-' ∨ l.getLast? = some '-') ∧
    [] ∉ splitDots l ∧ ∀ lab ∈ splitDots l, labelOk lab = true := by
  unfold validateAsciiDomain at h
  split_ifs at h with h1 h2 h3 h4 h5 <;> try cases h
  refine ⟨by omega, ?_, h3, ?_, List.all_eq_true.mp h5⟩
  · simpa [List.contains, List.elem_iff] using h2
  · intro hmem
    exact h4 (by simpa [List.contains, List.elem_iff] using hmem)

/-- Every character of a validated domain is alphanumeric, a hyphen or a
dot. -/
theorem validate_chars {l : List Char} (h : validateAsciiDomain l = none) :
    ∀ c ∈ l, isAlnumCI c = true ∨ c = '-' ∨ c = '.' := by
  intro c hc
  rcases mem_splitDots l c hc with rfl | ⟨lab, hlab, hclab⟩
  · right; right; rfl
  · rcases labelOk_chars ((validate_parts h).2.2.2.2 lab hlab) c hclab with
      h2 | h2
    · exact Or.inl h2
    · exact Or.inr (Or.inl h2)

/-- A validated domain does not end in a dot. -/
theorem validate_last_ne_dot {l : List Char}
    (h : validateAsciiDomain l = none) : l.getLast? ≠ some '.' := by
  intro hlast
  have h2 := splitDots_last_eq_nil l hlast
  exact (validate_parts h).2.2.2.1 (List.mem_of_getLast?_eq_some h2)

/-- A validated domain is non-empty. -/
theorem validate_ne_nil {l : List Char} (h : validateAsciiDomain l = none) :
    l ≠ [] := by
  have hlen := (validate_parts h).1
  intro hnil
  rw [hnil] at hlen
  simp at hlen

/-- A host-class character is not whitespace. -/
theorem hostChar_not_ws {c : Char}
    (h : isAlnumCI c = true ∨ c = '-' ∨ c = '.') : isWsChar c = false := by
  rcases h with h | rfl | rfl
  · have h2 : ((65 ≤ c.toNat ∧ c.toNat ≤ 90) ∨
        (97 ≤ c.toNat ∧ c.toNat ≤ 122)) ∨ (48 ≤ c.toNat ∧ c.toNat ≤ 57) := by
      simpa [isAlnumCI, isAsciiAlpha, isAsciiUpper, isAsciiLower,
        isAsciiDigit] using h
    simp only [isWsChar, decide_eq_false_iff_not]
    omega
  · decide
  · decide

/-- A host-class character is none of the URL separators. -/
theorem hostChar_notin {c : Char}
    (h : isAlnumCI c = true ∨ c = '-' ∨ c = '.') :
    c ≠ ':' ∧ c ≠ '/' ∧ c ≠ '?' ∧ c ≠ '#' := by
  refine ⟨?_, ?_, ?_, ?_⟩ <;> rintro rfl <;> revert h <;> decide

/-- `dropWhile` is the identity when the head already fails the test. -/
theorem dropWhile_eq_self_of {p : Char → Bool} {l : List Char}
    (h : ∀ c ∈ l, p c = false) : l.dropWhile p = l := by
  cases l with
  | nil => rfl
  | cons a t =>
    rw [List.dropWhile_cons, h a (List.mem_cons_self _ _)]
    simp

/-- `takeWhile` is the identity when every element passes the test. -/
theorem takeWhile_eq_self_of {p : Char → Bool} {l : List Char}
    (h : ∀ c ∈ l, p c = true) : l.takeWhile p = l := by
  induction l with
  | nil => rfl
  | cons a t ih =>
    rw [List.takeWhile_cons, h a (List.mem_cons_self _ _)]
    simp only [if_true]
    rw [ih fun c hc => h c (List.mem_cons_of_mem _ hc)]

/-- Trimming is the identity on whitespace-free strings. -/
theorem trimChars_eq_self {l : List Char}
    (h : ∀ c ∈ l, isWsChar c = false) : trimChars l = l := by
  unfold trimChars
  rw [dropWhile_eq_self_of h,
    dropWhile_eq_self_of fun c hc => h c (List.mem_reverse.mp hc),
    List.reverse_reverse]

/-- Dropping a trailing dot is the identity when the string does not end in
one. -/
theorem dropTrailingDot_eq_self {l : List Char}
    (hlast : l.getLast? ≠ some '.') : dropTrailingDot l = l := by
  unfold dropTrailingDot
  cases hg : l.getLast? with
  | none => rfl
  | some c =>
    have hc : ¬c = '.' := fun hc2 => hlast (hc2 ▸ hg)
    show (if c = '.' then l.dropLast else l) = l
    rw [if_neg hc]

/-- `stripExtras` is the identity on host-class strings without a trailing
dot. -/
theorem stripExtras_canon {l : List Char}
    (hchars : ∀ c ∈ l, isAlnumCI c = true ∨ c = '-' ∨ c = '.')
    (hlast : l.getLast? ≠ some '.') : stripExtras l = l := by
  have hcond1 : ¬(l.takeWhile isAsciiAlpha ≠ [] ∧
      (l.drop (l.takeWhile isAsciiAlpha).length).take 3 = [':', '/', '/']) := by
    rintro ⟨_, htake⟩
    have hcolon : ':' ∈ l := by
      have h1 : ':' ∈ (l.drop (l.takeWhile isAsciiAlpha).length).take 3 := by
        rw [htake]
        simp
      exact List.drop_subset _ _ (List.take_subset _ _ h1)
    exact (hostChar_notin (hchars ':' hcolon)).1 rfl
  have hcond2 : ¬(l.take 2 = ['/', '/']) := by
    intro htake
    have hslash : '/' ∈ l := by
      refine List.take_subset 2 l ?_
      rw [htake]
      simp
    exact (hostChar_notin (hchars '/' hslash)).2.1 rfl
  have htrim : trimChars l = l :=
    trimChars_eq_self fun c hc => hostChar_not_ws (hchars c hc)
  have htakeall : l.takeWhile
      (fun c => ¬(c = '/' ∨ c = '?' ∨ c = '#') : Char → Bool) = l := by
    refine takeWhile_eq_self_of fun c hc => ?_
    have hn := hostChar_notin (hchars c hc)
    simp [hn.2.1, hn.2.2.1, hn.2.2.2]
  simp only [stripExtras]
  rw [if_neg hcond1, if_neg hcond2, htrim, htakeall]
  exact dropTrailingDot_eq_self hlast

/-- `toASCII` maps a canonical key to itself. -/
theorem toASCII_canon {l : List Char} (hne : l ≠ [])
    (hchars : ∀ c ∈ l, isAlnumCI c = true ∨ c = '-' ∨ c = '.')
    (hlast : l.getLast? ≠ some '.') (hlower : lowerStr l = l) :
    toASCII l = some l := by
  unfold toASCII
  rw [if_neg hne]
  have hall : l.all
      (fun c => isAlnumCI c ∨ c = '-' ∨ c = '.' : Char → Bool) = true := by
    rw [List.all_eq_true]
    intro c hc
    simpa using hchars c hc
  rw [if_pos hall, dropTrailingDot_eq_self hlast, hlower]

/-- The value returned by `toASCII` is a lowercased string. -/
theorem toASCII_some_shape {l a : List Char} (h : toASCII l = some a) :
    a = lowerStr (dropTrailingDot l) := by
  unfold toASCII at h
  split_ifs at h with h1 h2 <;> cases h <;> rfl

/-- All facts needed to re-run the normalizer on a canonical key. -/
theorem canonKey_facts {k : List Char} (h : canonKey k) :
    trimChars k = k ∧ stripExtras k = k ∧ toASCII k = some k ∧ k ≠ [] := by
  obtain ⟨hval, hlow⟩ := h
  have hchars := validate_chars hval
  have hlast := validate_last_ne_dot hval
  have hne := validate_ne_nil hval
  exact ⟨trimChars_eq_self fun c hc => hostChar_not_ws (hchars c hc),
    stripExtras_canon hchars hlast, toASCII_canon hne hchars hlast hlow, hne⟩

/-- Shape of one accepted step of the normalizer loop. -/
theorem normGo_cons_valid {raw : String} {rest : List String}
    {seen : List (List Char)} {ascii : List Char}
    (htrim : ¬trimChars raw.data = [])
    (hasc : toASCII (stripExtras (trimChars raw.data)) = some ascii)
    (hval : validateAsciiDomain ascii = none)
    (hseen : ¬seen.contains (lowerStr ascii) = true) :
    normGo (raw :: rest) seen =
      { normGo rest (lowerStr ascii :: seen) with
          valid :=
            { display := String.mk (stripExtras (trimChars raw.data))
              ascii := String.mk (lowerStr ascii)
              tld := (extractTld (lowerStr ascii)).map String.mk } ::
              (normGo rest (lowerStr ascii :: seen)).valid } := by
  simp only [normGo, if_neg htrim, hasc, hval, if_neg hseen]

set_option maxHeartbeats 1600000 in
/-- The valid output of a skipped/invalid/duplicate step is that of the
remaining input. -/
theorem normGo_cons_valid_unchanged {raw : String} {rest : List String}
    {seen : List (List Char)}
    (h : trimChars raw.data = [] ∨
      toASCII (stripExtras (trimChars raw.data)) = none ∨
      (∃ err, validateAsciiDomain
        ((toASCII (stripExtras (trimChars raw.data))).getD []) = some err) ∨
      (∃ ascii, toASCII (stripExtras (trimChars raw.data)) = some ascii ∧
        seen.contains (lowerStr ascii) = true)) :
    (normGo (raw :: rest) seen).valid = (normGo rest seen).valid := by
  rcases h with htrim | hasc | ⟨err, hval⟩ | ⟨ascii, hasc, hdup⟩
  · simp only [normGo, if_pos htrim]
  · simp only [normGo, hasc]
    split
    all_goals rfl
  · by_cases htrim : trimChars raw.data = []
    · simp only [normGo, if_pos htrim]
    · cases hasc : toASCII (stripExtras (trimChars raw.data)) with
      | none =>
        simp only [normGo, if_neg htrim, hasc]
      | some ascii =>
        rw [hasc] at hval
        simp only [Option.getD_some] at hval
        simp only [normGo, if_neg htrim, hasc, hval]
  · by_cases htrim : trimChars raw.data = []
    · simp only [normGo, if_pos htrim]
    · cases hval : validateAsciiDomain ascii with
      | some err =>
        simp only [normGo, if_neg htrim, hasc, hval]
      | none =>
        simp only [normGo, if_neg htrim, hasc, hval, if_pos hdup]

/-- Invariant of the normalizer loop: the stored keys are pairwise
distinct, unseen, canonical, and carry their recomputed TLD. -/
theorem normGo_valid_spec :
    ∀ (input : List String) (seen : List (List Char)),
      ((normGo input seen).valid.map fun d => d.ascii.data).Nodup ∧
      ∀ d ∈ (normGo input seen).valid,
        d.ascii.data ∉ seen ∧ canonKey d.ascii.data ∧
        d.tld = (extractTld d.ascii.data).map String.mk := by
  intro input
  induction input with
  | nil =>
    intro seen
    exact ⟨List.nodup_nil, by intro d hd; cases hd⟩
  | cons raw rest ih =>
    intro seen
    by_cases htrim : trimChars raw.data = []
    · have hgo := @normGo_cons_valid_unchanged raw rest seen (Or.inl htrim)
      rw [hgo]
      exact ih seen
    · cases hasc : toASCII (stripExtras (trimChars raw.data)) with
      | none =>
        have hgo := @normGo_cons_valid_unchanged raw rest seen
          (Or.inr (Or.inl hasc))
        rw [hgo]
        exact ih seen
      | some ascii =>
        cases hval : validateAsciiDomain ascii with
        | some err =>
          have hgo := @normGo_cons_valid_unchanged raw rest seen
            (Or.inr (Or.inr (Or.inl ⟨err, by rw [hasc]; simpa using hval⟩)))
          rw [hgo]
          exact ih seen
        | none =>
          by_cases hseen : seen.contains (lowerStr ascii) = true
          · have hgo := @normGo_cons_valid_unchanged raw rest seen
              (Or.inr (Or.inr (Or.inr ⟨ascii, hasc, hseen⟩)))
            rw [hgo]
            exact ih seen
          · have hkeyeq : lowerStr ascii = ascii := by
              have hshape := toASCII_some_shape hasc
              rw [hshape, lowerStr_idem]
            have hcanon : canonKey (lowerStr ascii) := by
              rw [hkeyeq]
              exact ⟨hval, hkeyeq⟩
            have hgo := @normGo_cons_valid raw rest seen ascii htrim hasc hval hseen
            obtain ⟨ihn, ihm⟩ := ih (lowerStr ascii :: seen)
            constructor
            · rw [hgo]
              simp only [List.map_cons, List.nodup_cons]
              refine ⟨?_, ihn⟩
              intro hmem
              rw [List.mem_map] at hmem
              obtain ⟨d, hd, hdeq⟩ := hmem
              have := (ihm d hd).1
              rw [hdeq] at this
              exact this (List.mem_cons_self _ _)
            · rw [hgo]
              intro d hd
              rcases List.mem_cons.mp hd with rfl | hd2
              · refine ⟨?_, hcanon, rfl⟩
                intro hmem
                exact hseen (by simpa [List.contains, List.elem_iff] using hmem)
              · have hfacts := ihm d hd2
                exact ⟨fun hmem => hfacts.1 (List.mem_cons_of_mem _ hmem),
                  hfacts.2.1, hfacts.2.2⟩

/-- Feeding a list of fresh canonical keys to the normalizer returns them
all as valid, with display equal to the key and no rejects. -/
theorem normGo_canonical :
    ∀ (ks : List (List Char)) (seen : List (List Char)),
      (∀ k ∈ ks, canonKey k) → ks.Nodup → (∀ k ∈ ks, k ∉ seen) →
      normGo (ks.map String.mk) seen =
        { valid := ks.map fun k =>
            { display := String.mk k, ascii := String.mk k
              tld := (extractTld k).map String.mk }
          invalid := [], duplicate := [] } := by
  intro ks
  induction ks with
  | nil => intro seen _ _ _; rfl
  | cons k ks ih =>
    intro seen hcanon hnd hfresh
    have hk := hcanon k (List.mem_cons_self _ _)
    obtain ⟨htrimk, hstripk, hasciik, hnek⟩ := canonKey_facts hk
    have hdata : (String.mk k).data = k := rfl
    have htrim2 : ¬trimChars (String.mk k).data = [] := by
      rw [hdata, htrimk]
      exact hnek
    have hasc2 : toASCII (stripExtras (trimChars (String.mk k).data)) =
        some k := by
      rw [hdata, htrimk, hstripk]
      exact hasciik
    have hseen2 : ¬seen.contains (lowerStr k) = true := by
      rw [hk.2]
      intro hcon
      exact hfresh k (List.mem_cons_self _ _)
        (by simpa [List.contains, List.elem_iff] using hcon)
    have hgo := @normGo_cons_valid (String.mk k) (ks.map String.mk) seen k
      htrim2 hasc2 hk.1 hseen2
    rw [List.map_cons, hgo]
    have hih := ih (lowerStr k :: seen)
      (fun k2 hk2 => hcanon k2 (List.mem_cons_of_mem _ hk2))
      hnd.of_cons
      (by
        intro k2 hk2
        rw [hk.2]
        intro hmem
        rcases List.mem_cons.mp hmem with heq | hmem2
        · exact (List.nodup_cons.mp hnd).1 (heq ▸ hk2)
        · exact hfresh k2 (List.mem_cons_of_mem _ hk2) hmem2)
    rw [hih, hk.2]
    simp only [hdata, htrimk, hstripk, List.map_cons]

/-- C8: no two entries of the normalizer's `valid` output share the same
`ascii`; the stored keys are moreover already lowercase, so the uniqueness
is case-insensitive over the whole batch. -/
theorem c8_dedup_invariant (input : List String) :
    ((normalizeDomains input).valid.map fun d => d.ascii).Nodup ∧
    ∀ d ∈ (normalizeDomains input).valid,
      lowerStr d.ascii.data = d.ascii.data := by
  obtain ⟨hnodup, hmem⟩ := normGo_valid_spec input []
  constructor
  · have : ((normalizeDomains input).valid.map
        fun d => d.ascii).map String.data =
        (normalizeDomains input).valid.map fun d => d.ascii.data := by
      rw [List.map_map]
      rfl
    refine List.Nodup.of_map String.data ?_
    rw [this]
    exact hnodup
  · intro d hd
    exact (hmem d hd).2.1.2

/-- C7 (counterexample): re-running the normalizer on its own `valid`
output is not the identity on the full `DomainItem` records — for input
`"EXAMPLE.com"` the first pass keeps display `"EXAMPLE.com"` with ascii
`"example.com"`, while the second pass's display is the ascii form. -/
theorem c7_idempotence_counterexample :
    (normalizeDomains ((normalizeDomains ["EXAMPLE.com"]).valid.map
        fun d => d.ascii)).valid ≠
      (normalizeDomains ["EXAMPLE.com"]).valid := by
  decide

/-- C7 (amended): re-running the normalizer on the ascii forms of its
`valid` output reproduces that output except that each `display` collapses
to the `ascii` form — in particular the `ascii`/`tld` projections and the
list length are unchanged, and the second pass produces no invalid entries
and no duplicates. -/
theorem c7_idempotence_amended (input : List String) :
    (normalizeDomains ((normalizeDomains input).valid.map
        fun d => d.ascii)).valid =
      (normalizeDomains input).valid.map
        (fun d => { d with display := d.ascii }) ∧
    (normalizeDomains ((normalizeDomains input).valid.map
        fun d => d.ascii)).invalid = [] ∧
    (normalizeDomains ((normalizeDomains input).valid.map
        fun d => d.ascii)).duplicate = [] := by
  obtain ⟨hnodup, hmem⟩ := normGo_valid_spec input []
  have hmapeq : (normalizeDomains input).valid.map (fun d => d.ascii) =
      ((normalizeDomains input).valid.map fun d => d.ascii.data).map
        String.mk := by
    rw [List.map_map]
    rfl
  have hcanon : ∀ k ∈ (normalizeDomains input).valid.map
      fun d => d.ascii.data, canonKey k := by
    intro k hk
    rw [List.mem_map] at hk
    obtain ⟨d, hd, rfl⟩ := hk
    exact (hmem d hd).2.1
  have hrun := normGo_canonical
    ((normalizeDomains input).valid.map fun d => d.ascii.data) []
    hcanon hnodup (by intro k _ hk; cases hk)
  have hrun2 : normalizeDomains ((normalizeDomains input).valid.map
      fun d => d.ascii) =
      { valid := ((normalizeDomains input).valid.map
            fun d => d.ascii.data).map fun k =>
          { display := String.mk k, ascii := String.mk k
            tld := (extractTld k).map String.mk }
        invalid := [], duplicate := [] } := by
    rw [show normalizeDomains ((normalizeDomains input).valid.map
        fun d => d.ascii) = normGo ((normalizeDomains input).valid.map
        fun d => d.ascii) [] from rfl, hmapeq, hrun]
  rw [hrun2]
  refine ⟨?_, rfl, rfl⟩
  rw [List.map_map]
  refine List.map_congr_left ?_
  intro d hd
  have hfacts := hmem d hd
  simp only [Function.comp]
  have hmk : String.mk d.ascii.data = d.ascii := rfl
  rw [hmk, ← hfacts.2.2]

end Domiro
